import Mathlib

/-!
Verification development for the waveshift TTS engine (a streaming
voice-dubbing pipeline). Python floats are modelled as exact rationals,
numpy arrays of PCM samples as lists of rationals, and the stateful
fragments of the code as explicit state-passing functions. Each
definition is a shallow embedding of the correspondingly named Python
function; deviations forced by the shallow embedding (external `ffmpeg`
processes, filesystem side effects) are recorded in the doc comments.
-/

namespace WaveShift

/-- Mirror of the `Sentence` dataclass (src/core/sentence_tools.py, lines 16-41).
Floats become exact rationals; `generated_audio` (a numpy float array or `None`)
becomes `Option (List ℚ)`. The defaults are the dataclass field defaults. -/
structure Sentence where
  original_text : String := ""
  translated_text : String := ""
  sequence : Int := 0
  speaker : String := ""
  start_ms : ℚ := 0
  end_ms : ℚ := 0
  task_id : String := ""
  audio : String := ""
  target_duration : ℚ := 0
  duration : ℚ := 0
  speech_duration : ℚ := 0
  diff : ℚ := 0
  silence_duration : ℚ := 0
  speed : ℚ := 1
  is_first : Bool := false
  is_last : Bool := false
  generated_audio : Option (List ℚ) := none
  adjusted_start : ℚ := 0
  adjusted_duration : ℚ := 0
  ending_silence : ℚ := 0
deriving Repr, DecidableEq

/-- `Sentence.__post_init__` (src/core/sentence_tools.py, lines 43-57).
`td0` is the `target_duration` constructor argument, whose dataclass default is
`None`; when it is `None` the code computes `(end_ms - start_ms) / 1000.0`. -/
def sentence_post_init (td0 : Option ℚ) (s : Sentence) : Sentence :=
  let td := match td0 with
    | none => (s.end_ms - s.start_ms) / 1000
    | some v => v
  let dur := if s.duration = 0 then td else s.duration
  let sp := if s.speech_duration = 0 then dur * (9/10) else s.speech_duration
  let sil := if s.silence_duration = 0 then dur * (1/10) else s.silence_duration
  { s with target_duration := td, duration := dur,
           speech_duration := sp, silence_duration := sil }

/-- `D1Client.get_transcription_segments_from_worker` (src/core/cloudflare/d1_client.py,
lines 280-292): the Fetcher builds each `Sentence` from one transcription-segment row,
passing only the listed keyword arguments, so `target_duration` stays at its `None`
default and `__post_init__` computes it. -/
def fetch_sentence (sequence : Int) (start_ms end_ms : ℚ)
    (speaker original_text translated_text task_id : String)
    (total_segments : Int) : Sentence :=
  sentence_post_init none
    { original_text := original_text
      translated_text := translated_text
      sequence := sequence
      speaker := speaker
      start_ms := start_ms
      end_ms := end_ms
      task_id := task_id
      is_first := sequence == 1
      is_last := sequence == total_segments }

/-- One iteration of the adjustment loop of `align_batch`
(src/utils/duration_utils.py, lines 176-203). `total`, `possum` and `negsum` are
`total_diff_to_adjust`, `positive_diff_sum` and `negative_diff_sum_abs`; `t` is
`current_time`; `s.diff` has already been set to `duration - target_duration`. -/
def align_one (total possum negsum t : ℚ) (s : Sentence) : Sentence :=
  let base : Sentence :=
    { s with adjusted_start := t, speed := 1, silence_duration := 0,
             adjusted_duration := s.duration }
  let b : Sentence :=
    if total ≠ 0 then
      if total > 0 ∧ s.diff > 0 then
        if possum > 0 then
          let proportion := s.diff / possum
          let adjustment := total * proportion
          let ad := s.duration - adjustment
          { base with adjusted_duration := ad,
                      speed := s.duration / max ad (1/1000) }
        else base
      else if total < 0 ∧ s.diff < 0 then
        if negsum > 0 then
          let proportion := |s.diff| / negsum
          let needed := |total| * proportion
          let slow := min needed (s.duration * (12/100))
          let ad := s.duration + slow
          let sp := s.duration / max ad (1/1000)
          let sil := needed - slow
          let ad2 := if sil > 0 then ad + sil else ad
          { base with adjusted_duration := ad2, speed := sp,
                      silence_duration := sil }
        else base
      else base
    else base
  { b with diff := s.duration - b.adjusted_duration }

/-- The `for s in aligned_sentences` loop of `align_batch`, threading
`current_time` (src/utils/duration_utils.py, lines 176-203). -/
def align_go (total possum negsum : ℚ) : List Sentence → ℚ → List Sentence
  | [], _ => []
  | s :: rest, t =>
    let s1 := align_one total possum negsum t s
    s1 :: align_go total possum negsum rest (t + s1.adjusted_duration)

/-- `align_batch` (src/utils/duration_utils.py, lines 153-205): set
`diff = duration - target_duration` on every sentence, compute the three batch
sums, then walk the batch from `sentences[0].start_ms` adjusting each sentence. -/
def align_batch (sentences : List Sentence) : List Sentence :=
  match sentences with
  | [] => sentences
  | s0 :: _ =>
    let pre := sentences.map fun s => { s with diff := s.duration - s.target_duration }
    let total := (pre.map (·.diff)).sum
    let possum := ((pre.filter fun s => s.diff > 0).map (·.diff)).sum
    let negsum := ((pre.filter fun s => s.diff < 0).map fun s => |s.diff|).sum
    align_go total possum negsum pre s0.start_ms

/-- Duration-level model of `apply_speed_and_silence` (src/utils/duration_utils.py,
lines 13-151). The audio array is tracked through its length in milliseconds: at
this pipeline point the TTS producer has set `duration = len(generated_audio)/sr*1000`
and `align_batch` modifies neither `duration` nor the audio, so `original_duration`
is read from `s.duration`. The external `change_speed_ffmpeg` atempo stretch
(src/utils/ffmpeg_utils.py, an external process) is modelled ideally — output
length = input length / speed — and the `int(...)` truncation of silence sample
counts is dropped; the fade effects do not change lengths. A sentence without
audio only has `speech_duration` reset to 0 (the loop `continue`s). -/
def apply_one (s : Sentence) : Sentence :=
  match s.generated_audio with
  | none => { s with speech_duration := 0 }
  | some a =>
    if a.length = 0 then { s with speech_duration := 0 }
    else
      let original_duration := s.duration
      let d1 := if s.is_first ∧ s.start_ms > 0
        then s.start_ms + original_duration else original_duration
      let stretched := s.speed ≠ 1 ∧ s.speed > 0
      let d2 := if stretched then d1 / s.speed else d1
      let speech := if stretched then original_duration / s.speed else original_duration
      let d3 := if s.silence_duration > 0 then d2 + s.silence_duration else d2
      let d4 := if s.is_last ∧ s.ending_silence > 0 then d3 + s.ending_silence else d3
      { s with duration := d4, adjusted_duration := d4, speech_duration := speech }

/-- The whole pass is the per-sentence step over the batch. -/
def apply_speed_and_silence (sentences : List Sentence) : List Sentence :=
  sentences.map apply_one

/-- `DurationAligner.__call__` (src/core/timeadjust/duration_aligner.py, lines 21-46):
run `align_batch`; when no sentence exceeds `max_speed` (default 1.1), apply the
speed/silence pass and return the batch. The over-speed path re-synthesizes audio
through the external simplifier and TTS model and is returned as `none` here
(no claim depends on it). -/
def duration_aligner_call (max_speed : ℚ) (sentences : List Sentence) :
    Option (List Sentence) :=
  let aligned := align_batch sentences
  if aligned.all fun s => s.speed ≤ max_speed then
    some (apply_speed_and_silence aligned)
  else none

/-- `actual_duration` of one sentence (src/core/timeadjust/timestamp_adjuster.py,
lines 16-19): `len(generated_audio)/sample_rate*1000`, or 0 when the audio is
missing. -/
def actual_ms (sample_rate : ℚ) (s : Sentence) : ℚ :=
  match s.generated_audio with
  | some a => ((a.length : ℚ) / sample_rate) * 1000
  | none => 0

/-- The per-sentence loop of `TimestampAdjuster.__call__`
(src/core/timeadjust/timestamp_adjuster.py, lines 15-25), threading
`current_time`. -/
def adjust_go (sample_rate : ℚ) : List Sentence → ℚ → List Sentence
  | [], _ => []
  | s :: rest, t =>
    let actual := actual_ms sample_rate s
    let s1 := { s with adjusted_start := t, adjusted_duration := actual,
                       diff := s.duration - actual }
    s1 :: adjust_go sample_rate rest (t + actual)

/-- `TimestampAdjuster.__call__` (src/core/timeadjust/timestamp_adjuster.py,
lines 7-44). The `start_time is None` fallback reads `sentences[0].start`, an
attribute the `Sentence` dataclass does not define (it raises `AttributeError`
at runtime), so the embedding takes the starting clock as a required value. -/
def adjust_timestamps (sentences : List Sentence) (sample_rate : ℚ)
    (start_time : ℚ) : List Sentence :=
  match sentences with
  | [] => sentences
  | _ => adjust_go sample_rate sentences start_time

/-- `np.max(np.abs(audio_data))` over a PCM buffer; 0 for the empty buffer
(numpy would raise there, and `normalize_audio` only reads it on non-empty input). -/
def maxAbs (l : List ℚ) : ℚ := l.foldl (fun m x => max m |x|) 0

/-- `normalize_audio` (src/backend/utils/audio_utils.py, lines 143-165): scale the
buffer down to `max_val` only when its peak exceeds `max_val`. -/
def normalize_audio (audio_data : List ℚ) (max_val : ℚ) : List ℚ :=
  if audio_data.length = 0 then audio_data
  else
    let current_max := maxAbs audio_data
    if current_max > max_val then
      audio_data.map (· * (max_val / current_max))
    else audio_data

/-- `mix_with_background` (src/backend/utils/audio_utils.py, lines 63-141) as a pure
function: `bgData = none` models the `sf.read` failure branch (the scaled vocals are
returned zero-padded to `target_length`); `bgData = some background` is a successful
read. `int(...)` is `Int.toNat ∘ Int.floor` (Python `int()` truncates toward zero;
times here are non-negative). The float `NaN`/`Inf` guard has no rational analogue. -/
def mix_with_background (bgData : Option (List ℚ)) (start_time duration : ℚ)
    (audio_data : List ℚ) (sample_rate vocals_volume background_volume : ℚ) :
    List ℚ :=
  let target_length : ℕ := (⌊duration * sample_rate⌋).toNat
  match bgData with
  | none =>
    let audio_len := min audio_data.length target_length
    ((audio_data.take audio_len).map (· * vocals_volume)) ++
      List.replicate (target_length - audio_len) 0
  | some background =>
    let start_sample : ℕ := (⌊start_time * sample_rate⌋).toNat
    let end_sample := start_sample + target_length
    let bg_segment :=
      if end_sample ≤ background.length then
        ((background.drop start_sample).take target_length)
      else background.drop start_sample
    let audio_len := min audio_data.length target_length
    let bg_len := min bg_segment.length target_length
    (List.range target_length).map fun i =>
      (if i < audio_len then (audio_data.getD i 0) * vocals_volume else 0) +
      (if i < bg_len then (bg_segment.getD i 0) * background_volume else 0)

/-- `apply_fade_effect` in its default `overlap` mode (src/backend/utils/audio_utils.py,
lines 46-61): the first `cross_len` samples of `audio_data` are replaced by
`buffer_tail * fade_out + audio * fade_in`. The equal-power `sqrt(linspace(...))` ramps
are irrational, so the ramp is a parameter `ramp n i = (fade_out_i, fade_in_i)`; every
theorem below holds for an arbitrary ramp, and no witness depends on its values. -/
def apply_fade_effect (ramp : ℕ → ℕ → ℚ × ℚ) (audio_data full_audio_buffer : List ℚ)
    (overlap : ℕ) : List ℚ :=
  if audio_data.length = 0 then []
  else
    let cross_len := min overlap (min full_audio_buffer.length audio_data.length)
    if cross_len = 0 then audio_data
    else
      let region := full_audio_buffer.drop (full_audio_buffer.length - cross_len)
      ((List.range cross_len).map fun i =>
        (region.getD i 0) * (ramp cross_len i).1 +
          (audio_data.getD i 0) * (ramp cross_len i).2) ++
      audio_data.drop cross_len

/-- `_concat_audio_segments` (src/core/media_mixer.py, lines 310-325): concatenate
every sentence's generated audio, cross-fading against the rolling buffer once the
local accumulator is non-empty; sentences with missing or empty audio are skipped. -/
def concat_audio_segments (ramp : ℕ → ℕ → ℚ × ℚ) (sentences : List Sentence)
    (full_audio_buffer : List ℚ) (overlap : ℕ) : List ℚ :=
  sentences.foldl
    (fun full_audio s =>
      match s.generated_audio with
      | some a =>
        if a.length > 0 then
          if full_audio.length > 0 then
            full_audio ++ apply_fade_effect ramp a full_audio_buffer overlap
          else full_audio ++ a
        else full_audio
      | none => full_audio)
    []

/-- `_calculate_time_params` (src/core/media_mixer.py, lines 327-334); only called
on a non-empty batch (the `[]` case is unreachable in the source). -/
def calculate_time_params (sentences : List Sentence) : ℚ × ℚ :=
  match sentences with
  | [] => (0, 0)
  | s0 :: _ =>
    let start_time := if s0.is_first then 0 else s0.adjusted_start / 1000
    (start_time, (sentences.map (·.adjusted_duration)).sum / 1000)

/-- The configuration values `create_mixed_segment` and its helpers read
(src/config.py AudioConfig, lines 91-96), at their defaults. -/
structure MixConfig where
  audio_overlap : ℕ := 1024
  vocals_volume : ℚ := 7/10
  background_volume : ℚ := 3/10
  sample_rate : ℚ := 24000

/-- `create_mixed_segment` (src/core/media_mixer.py, lines 215-305), returning
(success flag, updated audio buffer, the PCM written into the produced MP4 — the
`audio_data` argument of the successful external `add_video_segment` call — or
`none` when no segment was produced). External effects are parameters:
`media_files_present` is the `if not media_files` check; `bg` is
`media_files['background_audio_path']` together with the outcome of reading it
(`none` = no background path, `some none` = path present but `sf.read` fails,
`some (some l)` = the read returns `l`); `video_path_present` is the
`silent_video_path` check; `mux_ok` is whether the external `add_video_segment`
ffmpeg call succeeds — when it raises, the handler at the end of the function
returns `(False, full_audio_buffer)`. -/
def create_mixed_segment (ramp : ℕ → ℕ → ℚ × ℚ) (cfg : MixConfig)
    (sentences : List Sentence) (media_files_present : Bool)
    (bg : Option (Option (List ℚ))) (video_path_present : Bool) (mux_ok : Bool)
    (max_val : ℚ) (full_audio_buffer : List ℚ) (max_buffer_samples : ℕ) :
    Bool × List ℚ × Option (List ℚ) :=
  if sentences.isEmpty then (false, full_audio_buffer, none)
  else
    let full_audio := concat_audio_segments ramp sentences full_audio_buffer cfg.audio_overlap
    if full_audio.length = 0 then (false, full_audio_buffer, none)
    else
      let tp := calculate_time_params sentences
      if ¬ media_files_present then (false, full_audio_buffer, none)
      else
        let full_audio2 := match bg with
          | some bgData =>
            normalize_audio
              (mix_with_background bgData tp.1 tp.2 full_audio cfg.sample_rate
                cfg.vocals_volume cfg.background_volume) max_val
          | none => full_audio
        if ¬ video_path_present then (false, full_audio_buffer, none)
        else
          let updated := full_audio_buffer ++ full_audio2
          let updated2 := if updated.length > max_buffer_samples then
            updated.drop (updated.length - max_buffer_samples) else updated
          if mux_ok then (true, updated2, some full_audio2)
          else (false, full_audio_buffer, none)

/-- `MediaMixer.mix_media` (src/core/media_mixer.py, lines 109-196) acting on the
mixer's `full_audio_buffer` state. It returns (the produced segment — exposed here
as its written PCM rather than its filesystem path — or `none` on failure, the new
buffer). `mix_media` passes `max_val = 1.0` to `create_mixed_segment` (line 160)
and replaces `self.full_audio_buffer` only when that call succeeds (lines 176-181). -/
def mix_media (ramp : ℕ → ℕ → ℚ × ℚ) (cfg : MixConfig)
    (full_audio_buffer : List ℚ) (sentences : List Sentence)
    (video_file_path audio_file_path : Bool) (bg : Option (Option (List ℚ)))
    (mux_ok : Bool) (max_buffer_samples : ℕ) :
    Option (List ℚ) × List ℚ :=
  if sentences.isEmpty then (none, full_audio_buffer)
  else if ¬ (video_file_path ∧ audio_file_path) then (none, full_audio_buffer)
  else
    let c := create_mixed_segment ramp cfg sentences true bg true mux_ok 1
      full_audio_buffer max_buffer_samples
    if c.1 then (c.2.2, c.2.1) else (none, full_audio_buffer)

/-- The audio-slicing configuration (src/config.py AudioSlicingConfig,
lines 122-125), at its defaults. -/
structure SliceConfig where
  goal_duration_ms : ℤ := 12000
  min_duration_ms : ℤ := 1000
  padding_ms : ℤ := 200
  allow_cross_non_speech : Bool := false

/-- One entry of the `transcript_data` list that `_create_audio_clips` consumes
(src/core/audio_segmenter.py, lines 54-67): the times are integer milliseconds (the
`_ms_to_time_str` / `_time_str_to_ms` round trip truncates the float `start_ms` /
`end_ms` to `int`). -/
structure TranscriptItem where
  sequence : Int
  start_ms : ℤ
  end_ms : ℤ
  speaker : String
  content_type : String := "speech"
deriving Repr, DecidableEq

/-- A speech item with its `padded_segment` and `segment_duration` fields filled in
(src/core/audio_segmenter.py, lines 77-89). -/
structure PaddedItem where
  item : TranscriptItem
  padded_start : ℤ
  padded_end : ℤ
  segment_duration : ℤ
deriving Repr, DecidableEq

/-- The preprocessing loop of `_create_audio_clips` (src/core/audio_segmenter.py,
lines 71-89): keep `speech` items, pad them, and drop non-positive durations. -/
def preprocess_items (cfg : SliceConfig) (transcript_data : List TranscriptItem) :
    List PaddedItem :=
  transcript_data.filterMap fun it =>
    if it.content_type == "speech" then
      let ps := max 0 (it.start_ms - cfg.padding_ms)
      let pe := it.end_ms + cfg.padding_ms
      let d := pe - ps
      if d > 0 then some ⟨it, ps, pe, d⟩ else none
    else none

/-- Whether a new "large block" starts before `cur` (src/core/audio_segmenter.py,
lines 102-120): speaker change always breaks; with `allow_cross_non_speech = false`
a non-consecutive `sequence` also breaks. -/
def block_break (cfg : SliceConfig) (last cur : PaddedItem) : Bool :=
  if cur.item.speaker == last.item.speaker then
    if cfg.allow_cross_non_speech then false
    else !(cur.item.sequence == last.item.sequence + 1)
  else true

/-- The block-building loop of `_create_audio_clips` (src/core/audio_segmenter.py,
lines 95-121), carrying the current block; `cur` is compared against the block's
last element. -/
def group_go (cfg : SliceConfig) (current_block : List PaddedItem) :
    List PaddedItem → List (List PaddedItem)
  | [] => [current_block]
  | c :: rest =>
    match current_block.getLast? with
    | some last =>
      if block_break cfg last c then current_block :: group_go cfg [c] rest
      else group_go cfg (current_block ++ [c]) rest
    | none => group_go cfg [c] rest

/-- Identify same-speaker consecutive blocks (src/core/audio_segmenter.py,
lines 94-121). -/
def group_blocks (cfg : SliceConfig) : List PaddedItem → List (List PaddedItem)
  | [] => []
  | s :: rest => group_go cfg [s] rest

/-- The truncation loop of `_create_audio_clips` for blocks longer than the goal
(src/core/audio_segmenter.py, lines 139-158): keep whole sentences while they fit,
then include a tail truncated to the remaining budget (when positive) and stop. -/
def truncate_to_goal (goal : ℤ) : List PaddedItem → ℤ → List PaddedItem
  | [], _ => []
  | it :: rest, accumulated =>
    if accumulated + it.segment_duration ≤ goal then
      it :: truncate_to_goal goal rest (accumulated + it.segment_duration)
    else
      let remaining := goal - accumulated
      if remaining > 0 then
        [{ it with segment_duration := remaining,
                   padded_end := it.padded_start + remaining }]
      else []

/-- The coalescing loop of `_merge_overlapping_segments`
(src/core/audio_segmenter.py, lines 198-206): `last` is `merged[-1]`. -/
def merge_loop : (ℤ × ℤ) → List (ℤ × ℤ) → List (ℤ × ℤ)
  | last, [] => [last]
  | last, c :: rest =>
    if c.1 ≤ last.2 then merge_loop (last.1, max last.2 c.2) rest
    else last :: merge_loop c rest

/-- `_merge_overlapping_segments` (src/core/audio_segmenter.py, lines 186-208) on
the extracted `padded_segment` pairs: stable-sort by start (Python's stable
`list.sort(key=λx. x[0])` and insertion sort by the same key produce the same
list), then coalesce overlapping neighbours. -/
def merge_overlapping_segments (segments : List (ℤ × ℤ)) : List (ℤ × ℤ) :=
  match segments.insertionSort (fun a b => a.1 ≤ b.1) with
  | [] => []
  | s :: rest => merge_loop s rest

/-- One entry of the `clips_library` built by `_create_audio_clips`
(src/core/audio_segmenter.py, lines 167-178); the clip ids `Clip_<n>` are the list
positions, and the `sentence_to_clip_id_map` side output is not modelled (no claim
mentions it). -/
structure AudioClip where
  speaker : String
  total_duration_ms : ℤ
  segments_to_concatenate : List (ℤ × ℤ)
deriving Repr, DecidableEq

/-- `_create_audio_clips` (src/core/audio_segmenter.py, lines 69-184): preprocess,
group into blocks, keep blocks whose summed padded duration reaches the minimum,
truncate those exceeding the goal, and coalesce each survivor's segments. -/
def create_audio_clips (cfg : SliceConfig) (transcript_data : List TranscriptItem) :
    List AudioClip :=
  let sentences := preprocess_items cfg transcript_data
  let large_blocks := group_blocks cfg sentences
  large_blocks.filterMap fun block =>
    let block_total := (block.map (·.segment_duration)).sum
    if block_total ≥ cfg.min_duration_ms then
      let final_sentences :=
        if block_total > cfg.goal_duration_ms then truncate_to_goal cfg.goal_duration_ms block 0
        else block
      let merged := merge_overlapping_segments
        (final_sentences.map fun it => (it.padded_start, it.padded_end))
      some { speaker := ((block.head?.map fun it => it.item.speaker).getD "")
             total_duration_ms := (merged.map fun p => p.2 - p.1).sum
             segments_to_concatenate := merged }
    else none

/-- One segment entry of an `m3u8` playlist: either a media segment (with a URI) or
a bare `EXT-X-DISCONTINUITY` marker entry as `HLSManager.add_segment` inserts it
(src/core/hls_manager.py, lines 563-564). -/
structure HLSSegment where
  uri : Option String := none
  duration : ℚ := 0
  discontinuity : Bool := false
deriving Repr, DecidableEq

/-- The in-memory `m3u8.M3U8` playlist as `HLSManager` configures it
(src/core/hls_manager.py, lines 77-86). -/
structure Playlist where
  version : ℕ := 3
  target_duration : ℕ := 10
  media_sequence : ℕ := 0
  is_endlist : Bool := false
  segments : List HLSSegment := []
deriving Repr, DecidableEq

/-- The per-task entry of `HLSManager.task_managers` (src/core/hls_manager.py,
lines 109-118), restricted to the fields the claims mention. -/
structure HLSTaskState where
  playlist : Playlist
  sequence_number : ℕ
  has_segments : Bool
deriving Repr, DecidableEq

/-- `HLSManager.create_manager` (src/core/hls_manager.py, lines 52-127): build a
fresh EVENT playlist; when storage is enabled and the object store holds a parsable
playlist with segments, adopt its segments, its `media_sequence` (`or 0` is the
identity on naturals) and their count, and mark `has_segments`. `existing` models
`get_existing_playlist_content` + `m3u8.loads`: `none` when the store has no
playlist or the attempt raised (the inner `except` swallows it). -/
def create_manager (enable_hls_storage : Bool) (existing : Option Playlist) :
    HLSTaskState :=
  let playlist : Playlist := {}
  match enable_hls_storage, existing with
  | true, some ep =>
    if ep.segments.isEmpty then ⟨playlist, 0, false⟩
    else
      ⟨{ playlist with segments := ep.segments, media_sequence := ep.media_sequence },
        ep.segments.length, true⟩
  | _, _ => ⟨playlist, 0, false⟩

/-- `HLSManager.add_segment` on its success path (src/core/hls_manager.py,
lines 533-601): append a discontinuity marker then every segment of the temp
playlist produced by the external `hls_segment` ffmpeg call (a parameter here),
advance `sequence_number` by their count and set `has_segments`. The returned
number is the `sequence_number` used in the new batch's filename pattern
`segment_{sequence_number:04d}_%03d.ts` (line 547). -/
def add_segment (st : HLSTaskState) (temp_segments : List HLSSegment) :
    HLSTaskState × ℕ :=
  let pattern_index := st.sequence_number
  let pl := st.playlist
  let pl2 := { pl with
    segments := pl.segments ++ [{ discontinuity := true }] ++ temp_segments,
    is_endlist := false }
  (⟨pl2, st.sequence_number + temp_segments.length, true⟩, pattern_index)

/-- The media segments of a playlist: the entries carrying a URI (a reparsed
playlist represents discontinuities as attributes of the following media segment,
so a stored playlist's `segments` are exactly its media segments). -/
def media_segments (pl : Playlist) : List HLSSegment :=
  pl.segments.filter fun s => s.uri.isSome

/-- The separator's result dict (src/core/vocal_separator.py interface as
`_process_audio_chain` consumes it): `success`, `vocals_path`, `instrumental_path`. -/
structure SepResult where
  success : Bool
  vocals_path : String := ""
  instrumental_path : String := ""
deriving Repr, DecidableEq

/-- `DataFetcher._process_audio_chain` (src/core/data_fetcher.py, lines 192-306).
External effects are parameters: `download_ok` the R2 download, `separation_enabled`
the `ENABLE_VOCAL_SEPARATION` config, `separator_available` the
`vocal_separator.is_available()` probe, `sep` the separator's result, `slicer` the
audio-slicer call (`none` models a raised exception, `some l` its return value),
`original_audio_path` the local `original_audio.wav` path and `sentences` the
optional input batch. The Python locals `vocals_path` / `instrumental_path` are
assigned only inside the separation-success branch (lines 254-255); they are
modelled as `Option String` with `none` = never assigned, so the reads at lines
268/270 (`if not vocals_path:`) raise `UnboundLocalError` on every other path,
which the outer handler catches, returning `(None, None, sentences)` (line 306). -/
def process_audio_chain (download_ok separation_enabled separator_available : Bool)
    (sep : SepResult) (slicer : Option (List Sentence))
    (original_audio_path : String) (sentences : Option (List Sentence)) :
    Option String × Option String × Option (List Sentence) :=
  if ¬ download_ok then (none, none, none)
  else
    let vocals_local : Option String :=
      if separation_enabled ∧ separator_available then
        if sep.success then some sep.vocals_path else none
      else none
    let instrumental_local : Option String :=
      if separation_enabled ∧ separator_available then
        if sep.success then some sep.instrumental_path else none
      else none
    match vocals_local with
    | none => (none, none, sentences)
    | some v =>
      let vocals_path := if v = "" then original_audio_path else v
      match instrumental_local with
      | none => (none, none, sentences)
      | some ip =>
        let instrumental_path : Option String := if ip = "" then none else some ip
        let segmented : Option (List Sentence) :=
          match sentences with
          | some ss =>
            if ss.isEmpty then some ss
            else
              match slicer with
              | some result => if result.isEmpty then some ss else some result
              | none => some ss
          | none => none
        (some vocals_path, instrumental_path, segmented)

/-- C2: the claim (and the repo's own unit test, src/test_unit_fix.py) says the
Fetcher-built sentence's target-duration field equals `end_ms - start_ms` in
milliseconds; the code stores `(end_ms - start_ms) / 1000.0` — seconds. At the
unit test's input (start_ms = 1000, end_ms = 3000, asserted to give 2000.0) the
field evaluates to 2, not 2000. -/
theorem c2_target_duration_is_seconds :
    (fetch_sentence 1 1000 3000 "speaker1" "测试句子" "Test sentence" "test" 1).target_duration
        = 2 ∧
    (2 : ℚ) ≠ 2000 := by
  refine ⟨?_, by norm_num⟩
  norm_num [fetch_sentence, sentence_post_init]

/-- C5: when vocal separation is disabled, or when the separator reports failure,
`_process_audio_chain` does not fall back to `original_audio.wav`: the local
`vocals_path` was never assigned, its read raises `UnboundLocalError`, and the
outer handler returns `(None, None, sentences)` — no vocals path, no
instrumental, and the slicer is never invoked on the batch. -/
theorem c5_fallback_lost_to_unbound_local (separator_available : Bool)
    (vp ip : String) (slicer : Option (List Sentence))
    (original_audio_path : String) (ss : List Sentence) :
    process_audio_chain true false separator_available ⟨true, vp, ip⟩ slicer
        original_audio_path (some ss) = (none, none, some ss) ∧
    process_audio_chain true true true ⟨false, vp, ip⟩ slicer
        original_audio_path (some ss) = (none, none, some ss) := by
  constructor <;> simp [process_audio_chain]

lemma adjust_go_head (sample_rate t : ℚ) (s : Sentence) (l : List Sentence) :
    ((adjust_go sample_rate (s :: l) t).head?.map (·.adjusted_start)) = some t := rfl

lemma adjust_go_durations (sample_rate : ℚ) :
    ∀ (l : List Sentence) (t : ℚ),
      List.Forall₂ (fun s o => o.adjusted_duration = actual_ms sample_rate s)
        l (adjust_go sample_rate l t)
  | [], _ => List.Forall₂.nil
  | s :: rest, t => by
    refine List.Forall₂.cons rfl ?_
    exact adjust_go_durations sample_rate rest _

lemma adjust_go_chain (sample_rate : ℚ) :
    ∀ (l : List Sentence) (t : ℚ),
      List.Chain' (fun s s' => s'.adjusted_start = s.adjusted_start + s.adjusted_duration)
        (adjust_go sample_rate l t)
  | [], _ => List.chain'_nil
  | [s], t => List.chain'_singleton _
  | s :: s2 :: rest, t => by
    rw [show adjust_go sample_rate (s :: s2 :: rest) t
        = { s with adjusted_start := t,
                   adjusted_duration := actual_ms sample_rate s,
                   diff := s.duration - actual_ms sample_rate s }
          :: adjust_go sample_rate (s2 :: rest) (t + actual_ms sample_rate s) from rfl,
      List.chain'_cons']
    refine ⟨?_, adjust_go_chain sample_rate (s2 :: rest) _⟩
    intro y hy
    simp only [adjust_go, List.head?_cons, Option.mem_def, Option.some.injEq] at hy
    subst hy
    rfl

/-- C3: for every non-empty batch and starting clock value, `TimestampAdjuster`
puts the first sentence at the given clock, gives every sentence
`adjusted_duration = len(generated_audio)/sample_rate*1000` (0 when the audio is
missing), and makes consecutive sentences exactly continuous — within the claimed
1 ms tolerance. -/
theorem c3_timestamp_continuity (sentences : List Sentence)
    (hne : sentences ≠ []) (sample_rate start_time : ℚ) :
    ((adjust_timestamps sentences sample_rate start_time).head?.map
        (·.adjusted_start)) = some start_time ∧
    List.Forall₂ (fun s o => o.adjusted_duration = actual_ms sample_rate s)
      sentences (adjust_timestamps sentences sample_rate start_time) ∧
    List.Chain'
      (fun s s' => |s'.adjusted_start - (s.adjusted_start + s.adjusted_duration)| ≤ 1)
      (adjust_timestamps sentences sample_rate start_time) := by
  match sentences, hne with
  | s :: rest, _ =>
    refine ⟨adjust_go_head .., adjust_go_durations .., ?_⟩
    refine (adjust_go_chain sample_rate (s :: rest) start_time).imp ?_
    intro a b hab
    rw [hab]
    simp

/-- Witness for C3 at a concrete one-sentence batch with 2 samples at 2 Hz. -/
theorem c3_timestamp_continuity_witness :
    ((adjust_timestamps [{ generated_audio := some [0, 0] }] 2 5).head?.map
        (·.adjusted_start)) = some 5 ∧
    List.Forall₂ (fun s o => o.adjusted_duration = actual_ms 2 s)
      [{ generated_audio := some [0, 0] }]
      (adjust_timestamps [{ generated_audio := some [0, 0] }] 2 5) ∧
    List.Chain'
      (fun s s' => |s'.adjusted_start - (s.adjusted_start + s.adjusted_duration)| ≤ 1)
      (adjust_timestamps [{ generated_audio := some [0, 0] }] 2 5) :=
  c3_timestamp_continuity [{ generated_audio := some [0, 0] }] (by simp) 2 5

lemma create_mixed_segment_fail (ramp : ℕ → ℕ → ℚ × ℚ) (cfg : MixConfig)
    (sentences : List Sentence) (media : Bool) (bg : Option (Option (List ℚ)))
    (video mux : Bool) (max_val : ℚ) (buffer : List ℚ) (mbs : ℕ)
    (h : (create_mixed_segment ramp cfg sentences media bg video mux max_val
        buffer mbs).1 = false) :
    (create_mixed_segment ramp cfg sentences media bg video mux max_val
        buffer mbs).2.1 = buffer := by
  unfold create_mixed_segment at h ⊢
  split_ifs at h ⊢ <;> try simp_all
  all_goals split_ifs at h ⊢
  all_goals simp_all

lemma create_mixed_segment_success_written (ramp : ℕ → ℕ → ℚ × ℚ) (cfg : MixConfig)
    (sentences : List Sentence) (media : Bool) (bg : Option (Option (List ℚ)))
    (video mux : Bool) (max_val : ℚ) (buffer : List ℚ) (mbs : ℕ)
    (h : (create_mixed_segment ramp cfg sentences media bg video mux max_val
        buffer mbs).1 = true) :
    (create_mixed_segment ramp cfg sentences media bg video mux max_val
        buffer mbs).2.2.isSome := by
  unfold create_mixed_segment at h ⊢
  split_ifs at h ⊢ <;> try simp_all
  all_goals split_ifs at h ⊢ <;> simp_all

/-- C9: every failure path of `create_mixed_segment` (empty batch, empty
concatenated audio, missing media info, missing video path, or a raised
exception in the mux) returns the rolling audio buffer exactly as passed in;
`mix_media` leaves the mixer's `full_audio_buffer` unchanged whenever it
produces no segment, and replaces it with `create_mixed_segment`'s updated
buffer exactly when a segment is produced. -/
theorem c9_failure_preserves_buffer (ramp : ℕ → ℕ → ℚ × ℚ) (cfg : MixConfig)
    (sentences : List Sentence) (media : Bool) (bg : Option (Option (List ℚ)))
    (video mux v a : Bool) (max_val : ℚ) (buffer : List ℚ) (mbs : ℕ) :
    ((create_mixed_segment ramp cfg sentences media bg video mux max_val
        buffer mbs).1 = false →
      (create_mixed_segment ramp cfg sentences media bg video mux max_val
        buffer mbs).2.1 = buffer) ∧
    ((mix_media ramp cfg buffer sentences v a bg mux mbs).1 = none →
      (mix_media ramp cfg buffer sentences v a bg mux mbs).2 = buffer) ∧
    (∀ w, (mix_media ramp cfg buffer sentences v a bg mux mbs).1 = some w →
      (mix_media ramp cfg buffer sentences v a bg mux mbs).2
        = (create_mixed_segment ramp cfg sentences true bg true mux 1 buffer mbs).2.1) := by
  refine ⟨fun h => create_mixed_segment_fail _ _ _ _ _ _ _ _ _ _ h, ?_, ?_⟩ <;>
    unfold mix_media
  · split_ifs with h1 h2 <;> try simp
    by_cases hc : (create_mixed_segment ramp cfg sentences true bg true mux 1
        buffer mbs).1 = true
    · rcases Option.isSome_iff_exists.mp
        (create_mixed_segment_success_written _ _ _ _ _ _ _ _ _ _ hc) with ⟨w, hw⟩
      simp [hc, hw]
    · simp [hc]
  · split_ifs with h1 h2 <;> try simp
    by_cases hc : (create_mixed_segment ramp cfg sentences true bg true mux 1
        buffer mbs).1 = true
    · simp [hc]
    · simp [hc]

lemma le_foldl_max (l : List ℚ) : ∀ init : ℚ, init ≤ l.foldl (fun m x => max m |x|) init := by
  induction l with
  | nil => intro init; simp
  | cons y ys ih =>
    intro init
    exact le_trans (le_max_left init |y|) (ih (max init |y|))

lemma mem_le_maxAbs {x : ℚ} {l : List ℚ} (hx : x ∈ l) : |x| ≤ maxAbs l := by
  unfold maxAbs
  generalize (0 : ℚ) = init
  induction l generalizing init with
  | nil => simp at hx
  | cons y ys ih =>
    rcases List.mem_cons.mp hx with rfl | hmem
    · exact le_trans (le_max_right init |x|) (le_foldl_max ys _)
    · exact ih hmem _

lemma normalize_audio_le (l : List ℚ) (m : ℚ) (hm : 0 < m) :
    ∀ x ∈ normalize_audio l m, |x| ≤ m := by
  intro x hx
  by_cases h1 : l.length = 0
  · rw [List.length_eq_zero] at h1
    subst h1
    simp [normalize_audio] at hx
  · by_cases h2 : maxAbs l > m
    · have heq : normalize_audio l m = l.map fun y => y * (m / maxAbs l) := by
        simp only [normalize_audio]
        rw [if_neg h1, if_pos h2]
      rw [heq] at hx
      rcases List.mem_map.mp hx with ⟨y, hy, rfl⟩
      have hy' := mem_le_maxAbs hy
      have hcm : (0 : ℚ) < maxAbs l := lt_trans hm h2
      have hr : (0 : ℚ) ≤ m / maxAbs l := le_of_lt (div_pos hm hcm)
      calc |y * (m / maxAbs l)| = |y| * (m / maxAbs l) := by
            rw [abs_mul, abs_of_nonneg hr]
        _ ≤ maxAbs l * (m / maxAbs l) := mul_le_mul_of_nonneg_right hy' hr
        _ = m := by field_simp
    · have heq : normalize_audio l m = l := by
        simp only [normalize_audio]
        rw [if_neg h1, if_neg h2]
      rw [heq] at hx
      exact le_trans (mem_le_maxAbs hx) (le_of_not_lt h2)

lemma create_mixed_segment_written_bg (ramp : ℕ → ℕ → ℚ × ℚ) (cfg : MixConfig)
    (sentences : List Sentence) (media : Bool) (bgReq : Option (List ℚ))
    (video mux : Bool) (max_val : ℚ) (buffer : List ℚ) (mbs : ℕ) (w : List ℚ)
    (hw : (create_mixed_segment ramp cfg sentences media (some bgReq) video mux
        max_val buffer mbs).2.2 = some w) :
    ∃ lmix, w = normalize_audio lmix max_val := by
  unfold create_mixed_segment at hw
  split_ifs at hw <;> try simp_all
  all_goals split_ifs at hw
  all_goals simp_all
  all_goals exact ⟨_, hw.symm⟩

/-- C4 amended: the mixer enforces a level bound only on the background-mix path,
and the bound is the `max_val = 1.0` that `mix_media` passes to
`create_mixed_segment`, not `NORMALIZATION_THRESHOLD` (0.9): whenever a
background-audio path is present (whether or not reading it succeeds,
`normalize_audio` runs), every sample of the PCM written into the MP4 segment
has `|x| ≤ 1`; with no background path, the concatenated vocals are written
without any normalization. -/
theorem c4_background_mix_bounded_by_one (ramp : ℕ → ℕ → ℚ × ℚ) (cfg : MixConfig)
    (buffer : List ℚ) (sentences : List Sentence) (v a mux : Bool)
    (bgReq : Option (List ℚ)) (mbs : ℕ) (w : List ℚ)
    (hw : (mix_media ramp cfg buffer sentences v a (some bgReq) mux mbs).1 = some w) :
    ∀ x ∈ w, |x| ≤ 1 := by
  unfold mix_media at hw
  split_ifs at hw
  all_goals try simp_all
  by_cases hc : (create_mixed_segment ramp cfg sentences true (some bgReq) true mux 1
      buffer mbs).1 = true
  · rw [if_pos hc] at hw
    simp only at hw
    rcases create_mixed_segment_written_bg _ _ _ _ _ _ _ _ _ _ _ hw with ⟨lmix, rfl⟩
    exact normalize_audio_le lmix 1 one_pos
  · rw [if_neg hc] at hw
    simp at hw

/-- Witness for C4's amended theorem: a concrete batch mixed against a concrete
background track; the written PCM is bounded by 1. -/
theorem c4_background_mix_bounded_by_one_witness :
    (mix_media (fun _ _ => ((0 : ℚ), (0 : ℚ))) {} []
        [{ generated_audio := some [1], adjusted_duration := 1000/24000 }]
        true true (some (some [0])) true 240000).1 = some [7/10] ∧
    |(7/10 : ℚ)| ≤ 1 := by
  have hev : (mix_media (fun _ _ => ((0 : ℚ), (0 : ℚ))) {} []
      [{ generated_audio := some [1], adjusted_duration := 1000/24000 }]
      true true (some (some [0])) true 240000).1 = some [7/10] := by
    norm_num [mix_media, create_mixed_segment, concat_audio_segments,
      calculate_time_params, normalize_audio, maxAbs, mix_with_background,
      apply_fade_effect, List.foldl, lt_abs, List.range_succ, List.getD]
  exact ⟨hev, c4_background_mix_bounded_by_one (fun _ _ => (0, 0)) {} []
    [{ generated_audio := some [1], adjusted_duration := 1000/24000 }]
    true true true (some [0]) 240000 [7/10] hev (7/10)
    (List.mem_singleton.mpr rfl)⟩

/-- C4 counterexample: with no background track present, nothing normalizes the
concatenated vocals — a one-sentence batch whose audio is the single sample
39/20 = 1.95 is written into the MP4 verbatim, violating the claimed
`max(|x|) ≤ NORMALIZATION_THRESHOLD = 0.9` bound. -/
theorem c4_counterexample :
    (mix_media (fun _ _ => (0, 0)) {} [] [{ generated_audio := some [39/20] }]
        true true none true 240000).1 = some [39/20] ∧
    ¬ (|(39 : ℚ)/20| ≤ 9/10) := by
  constructor
  · norm_num [mix_media, create_mixed_segment, concat_audio_segments,
      calculate_time_params, apply_fade_effect, List.foldl]
  · rw [abs_of_nonneg (by norm_num)]
    norm_num

/-- A point lies inside one of a list of closed `[start, end]` segments. -/
def covered (segs : List (ℤ × ℤ)) (x : ℤ) : Prop := ∃ p ∈ segs, p.1 ≤ x ∧ x ≤ p.2

instance : IsTotal (ℤ × ℤ) (fun a b : ℤ × ℤ => a.1 ≤ b.1) :=
  ⟨fun a b => le_total a.1 b.1⟩

instance : IsTrans (ℤ × ℤ) (fun a b : ℤ × ℤ => a.1 ≤ b.1) :=
  ⟨fun _ _ _ => le_trans⟩

lemma covered_nil (x : ℤ) : ¬ covered [] x := by simp [covered]

lemma covered_cons {a : ℤ × ℤ} {l : List (ℤ × ℤ)} {x : ℤ} :
    covered (a :: l) x ↔ (a.1 ≤ x ∧ x ≤ a.2) ∨ covered l x := by
  simp [covered, List.mem_cons, or_and_right, exists_or, exists_eq_left]

lemma covered_perm {l l' : List (ℤ × ℤ)} (h : l.Perm l') (x : ℤ) :
    covered l x ↔ covered l' x := by
  unfold covered
  constructor <;> rintro ⟨p, hp, hx⟩
  · exact ⟨p, h.mem_iff.mp hp, hx⟩
  · exact ⟨p, h.mem_iff.mpr hp, hx⟩

lemma merge_loop_head_fst : ∀ (rest : List (ℤ × ℤ)) (last : ℤ × ℤ),
    ((merge_loop last rest).head?.map (·.1)) = some last.1
  | [], _ => rfl
  | c :: rest, last => by
    unfold merge_loop
    split_ifs with h
    · exact merge_loop_head_fst rest (last.1, max last.2 c.2)
    · rfl

lemma sorted_merge_step {last c : ℤ × ℤ} {rest : List (ℤ × ℤ)}
    (hs : List.Sorted (fun a b : ℤ × ℤ => a.1 ≤ b.1) (last :: c :: rest)) :
    List.Sorted (fun a b : ℤ × ℤ => a.1 ≤ b.1) ((last.1, max last.2 c.2) :: rest) := by
  rw [List.sorted_cons] at hs ⊢
  refine ⟨fun b hb => hs.1 b (List.mem_cons_of_mem c hb), ?_⟩
  exact (List.sorted_cons.mp hs.2).2

lemma merge_loop_covered : ∀ (rest : List (ℤ × ℤ)) (last : ℤ × ℤ),
    List.Sorted (fun a b : ℤ × ℤ => a.1 ≤ b.1) (last :: rest) → ∀ x : ℤ,
      (covered (merge_loop last rest) x ↔
        ((last.1 ≤ x ∧ x ≤ last.2) ∨ covered rest x))
  | [], last, _, x => by
    simp [merge_loop, covered_cons, covered_nil]
  | c :: rest, last, hs, x => by
    have hlc : last.1 ≤ c.1 := (List.sorted_cons.mp hs).1 c (List.mem_cons_self c rest)
    unfold merge_loop
    split_ifs with h
    · rw [merge_loop_covered rest (last.1, max last.2 c.2) (sorted_merge_step hs) x,
        covered_cons]
      constructor
      · rintro (⟨h1, h2⟩ | hc)
        · rcases le_or_lt x last.2 with hx | hx
          · exact Or.inl ⟨h1, hx⟩
          · refine Or.inr (Or.inl ⟨le_trans h hx.le, ?_⟩)
            rcases max_cases last.2 c.2 with ⟨hm, _⟩ | ⟨hm, _⟩ <;> omega
        · exact Or.inr (Or.inr hc)
      · rintro (⟨h1, h2⟩ | ⟨h1, h2⟩ | hc)
        · exact Or.inl ⟨h1, le_trans h2 (le_max_left _ _)⟩
        · exact Or.inl ⟨le_trans hlc h1, le_trans h2 (le_max_right _ _)⟩
        · exact Or.inr hc
    · rw [covered_cons,
        merge_loop_covered rest c (List.sorted_cons.mp hs).2 x, covered_cons]

lemma merge_loop_chain : ∀ (rest : List (ℤ × ℤ)) (last : ℤ × ℤ),
    List.Sorted (fun a b : ℤ × ℤ => a.1 ≤ b.1) (last :: rest) →
      List.Chain' (fun a b : ℤ × ℤ => a.1 ≤ b.1 ∧ a.2 < b.1) (merge_loop last rest)
  | [], last, _ => List.chain'_singleton _
  | c :: rest, last, hs => by
    have hlc : last.1 ≤ c.1 := (List.sorted_cons.mp hs).1 c (List.mem_cons_self c rest)
    unfold merge_loop
    split_ifs with h
    · exact merge_loop_chain rest (last.1, max last.2 c.2) (sorted_merge_step hs)
    · rw [List.chain'_cons']
      refine ⟨?_, merge_loop_chain rest c (List.sorted_cons.mp hs).2⟩
      intro y hy
      have hf := merge_loop_head_fst rest c
      have hy1 : y.1 = c.1 := by
        rw [Option.mem_def] at hy
        rw [hy] at hf
        simpa using hf
      rw [hy1]
      exact ⟨hlc, not_le.mp h⟩

/-- C10: `_merge_overlapping_segments` returns intervals whose starts are
non-decreasing and pairwise disjoint (each start strictly after the previous
interval's end), covering exactly the same points as the input segments. -/
theorem c10_merge_overlapping_correct (segments : List (ℤ × ℤ)) :
    List.Chain' (fun a b : ℤ × ℤ => a.1 ≤ b.1 ∧ a.2 < b.1)
      (merge_overlapping_segments segments) ∧
    ∀ x : ℤ, covered (merge_overlapping_segments segments) x ↔ covered segments x := by
  have hperm : (segments.insertionSort fun a b => a.1 ≤ b.1).Perm segments :=
    List.perm_insertionSort _ _
  have hsort : List.Sorted (fun a b : ℤ × ℤ => a.1 ≤ b.1)
      (segments.insertionSort fun a b => a.1 ≤ b.1) :=
    List.sorted_insertionSort _ _
  unfold merge_overlapping_segments
  rcases heq : segments.insertionSort fun a b => a.1 ≤ b.1 with _ | ⟨s, rest⟩
  · rw [heq] at hperm
    rw [heq]
    constructor
    · exact List.chain'_nil
    · intro x
      rw [← covered_perm hperm x]
  · rw [heq] at hperm hsort
    rw [heq]
    constructor
    · exact merge_loop_chain rest s hsort
    · intro x
      rw [merge_loop_covered rest s hsort x, ← covered_cons]
      exact covered_perm hperm x

lemma merge_loop_sum_le : ∀ (rest : List (ℤ × ℤ)) (last : ℤ × ℤ),
    (∀ p ∈ rest, p.1 ≤ p.2) →
      ((merge_loop last rest).map fun p => p.2 - p.1).sum ≤
        (last.2 - last.1) + (rest.map fun p => p.2 - p.1).sum
  | [], last, _ => by simp [merge_loop]
  | c :: rest, last, hp => by
    unfold merge_loop
    split_ifs with h
    · have hrec := merge_loop_sum_le rest (last.1, max last.2 c.2)
        fun p hmem => hp p (List.mem_cons_of_mem c hmem)
      refine le_trans hrec ?_
      have hc := hp c (List.mem_cons_self c rest)
      simp only [List.map_cons, List.sum_cons]
      rcases max_cases last.2 c.2 with ⟨hm, _⟩ | ⟨hm, _⟩ <;> rw [hm] <;> linarith
    · simp only [List.map_cons, List.sum_cons]
      have hrec := merge_loop_sum_le rest c
        fun p hmem => hp p (List.mem_cons_of_mem c hmem)
      linarith

lemma merge_sum_le (segs : List (ℤ × ℤ)) (hp : ∀ p ∈ segs, p.1 ≤ p.2) :
    ((merge_overlapping_segments segs).map fun p => p.2 - p.1).sum ≤
      (segs.map fun p => p.2 - p.1).sum := by
  have hperm : (segs.insertionSort fun a b => a.1 ≤ b.1).Perm segs :=
    List.perm_insertionSort _ _
  have hsum : ((segs.insertionSort fun a b => a.1 ≤ b.1).map fun p => p.2 - p.1).sum
      = (segs.map fun p => p.2 - p.1).sum := (hperm.map _).sum_eq
  unfold merge_overlapping_segments
  rcases heq : segs.insertionSort fun a b => a.1 ≤ b.1 with _ | ⟨s, rest⟩
  · rw [heq] at hsum
    rw [heq]
    simp only [List.map_nil, List.sum_nil] at hsum
    rw [← hsum]
    simp
  · rw [heq] at hsum hperm
    rw [heq]
    have hrest : ∀ p ∈ rest, p.1 ≤ p.2 := fun p hmem =>
      hp p (hperm.mem_iff.mp (List.mem_cons_of_mem s hmem))
    calc ((merge_loop s rest).map fun p => p.2 - p.1).sum
        ≤ (s.2 - s.1) + (rest.map fun p => p.2 - p.1).sum :=
          merge_loop_sum_le rest s hrest
      _ = ((s :: rest).map fun p => p.2 - p.1).sum := by
          simp [List.map_cons, List.sum_cons]
      _ = (segs.map fun p => p.2 - p.1).sum := hsum

lemma truncate_sum_le (goal : ℤ) : ∀ (l : List PaddedItem) (acc : ℤ), acc ≤ goal →
    ((truncate_to_goal goal l acc).map (·.segment_duration)).sum ≤ goal - acc
  | [], acc, h => by simp [truncate_to_goal]; linarith
  | it :: rest, acc, h => by
    simp only [truncate_to_goal]
    split_ifs with h1 h2
    · have hrec := truncate_sum_le goal rest (acc + it.segment_duration) h1
      simp only [List.map_cons, List.sum_cons]
      linarith
    · simp only [List.map_cons, List.map_nil, List.sum_cons, List.sum_nil]
      linarith
    · simp only [List.map_nil, List.sum_nil]
      linarith

/-- Interval consistency of a padded item: its padded segment matches its
recorded duration, which is non-negative. -/
def ItemInv (it : PaddedItem) : Prop :=
  it.padded_end - it.padded_start = it.segment_duration ∧ 0 ≤ it.segment_duration

lemma preprocess_items_inv (cfg : SliceConfig) (td : List TranscriptItem) :
    ∀ it ∈ preprocess_items cfg td, ItemInv it := by
  intro it hit
  rcases List.mem_filterMap.mp hit with ⟨a, _, ha⟩
  dsimp only at ha
  split_ifs at ha with h1 h2
  · injection ha with ha
    subst ha
    exact ⟨by ring, le_of_lt h2⟩

lemma truncate_inv (goal : ℤ) : ∀ (l : List PaddedItem) (acc : ℤ),
    (∀ it ∈ l, ItemInv it) →
      ∀ it ∈ truncate_to_goal goal l acc, ItemInv it
  | [], _, _ => by simp [truncate_to_goal]
  | it0 :: rest, acc, hl => by
    simp only [truncate_to_goal]
    split_ifs with h1 h2
    · intro it hit
      rcases List.mem_cons.mp hit with rfl | hmem
      · exact hl it (List.mem_cons_self _ _)
      · exact truncate_inv goal rest (acc + it0.segment_duration)
          (fun a ha => hl a (List.mem_cons_of_mem _ ha)) it hmem
    · intro it hit
      rcases List.mem_cons.mp hit with rfl | hmem
      · exact ⟨by dsimp only; ring, by dsimp only; linarith⟩
      · simp at hmem
    · intro it hit
      simp at hit

lemma group_go_mem (cfg : SliceConfig) : ∀ (l cb block : List PaddedItem),
    block ∈ group_go cfg cb l → ∀ it ∈ block, it ∈ cb ∨ it ∈ l
  | [], cb, block, hb, it, hit => by
    simp only [group_go, List.mem_singleton] at hb
    subst hb
    exact Or.inl hit
  | c :: rest, cb, block, hb, it, hit => by
    unfold group_go at hb
    rcases hgl : cb.getLast? with _ | last <;> rw [hgl] at hb <;> dsimp only at hb
    · rcases group_go_mem cfg rest [c] block hb it hit with h | h
      · simp only [List.mem_singleton] at h
        exact Or.inr (h ▸ List.mem_cons_self c rest)
      · exact Or.inr (List.mem_cons_of_mem c h)
    · split_ifs at hb with hbr
      · rcases List.mem_cons.mp hb with rfl | hmem
        · exact Or.inl hit
        · rcases group_go_mem cfg rest [c] block hmem it hit with h | h
          · simp only [List.mem_singleton] at h
            exact Or.inr (h ▸ List.mem_cons_self c rest)
          · exact Or.inr (List.mem_cons_of_mem c h)
      · rcases group_go_mem cfg rest (cb ++ [c]) block hb it hit with h | h
        · rcases List.mem_append.mp h with h' | h'
          · exact Or.inl h'
          · simp only [List.mem_singleton] at h'
            exact Or.inr (h' ▸ List.mem_cons_self c rest)
        · exact Or.inr (List.mem_cons_of_mem c h)

lemma group_blocks_mem (cfg : SliceConfig) (l block : List PaddedItem)
    (hb : block ∈ group_blocks cfg l) : ∀ it ∈ block, it ∈ l := by
  intro it hit
  match l, hb with
  | s :: rest, hb =>
    rcases group_go_mem cfg rest [s] block hb it hit with h | h
    · simp only [List.mem_singleton] at h
      exact h ▸ List.mem_cons_self s rest
    · exact List.mem_cons_of_mem s h

lemma map_congr_inv {l : List PaddedItem} (h : ∀ it ∈ l, ItemInv it) :
    (l.map fun it => (it.padded_start, it.padded_end)).map (fun p => p.2 - p.1)
      = l.map (·.segment_duration) := by
  induction l with
  | nil => rfl
  | cons a as ih =>
    simp only [List.map_cons, List.cons.injEq]
    exact ⟨(h a (List.mem_cons_self a as)).1,
      ih fun it hit => h it (List.mem_cons_of_mem a hit)⟩

/-- C6 amended: every produced clip has `total_duration_ms` at most
`AUDIO_CLIP_GOAL_DURATION_MS` (12000 at the defaults). The
`≥ AUDIO_CLIP_MIN_DURATION_MS` side of the claim holds only for the block's
summed padded durations before coalescing; because overlapping padded
segments are merged, the produced clip itself can be shorter than the
minimum (see the counterexample). -/
theorem c6_clip_upper_bound (cfg : SliceConfig) (td : List TranscriptItem)
    (hgoal : 0 ≤ cfg.goal_duration_ms) :
    ∀ clip ∈ create_audio_clips cfg td, clip.total_duration_ms ≤ cfg.goal_duration_ms := by
  intro clip hclip
  simp only [create_audio_clips] at hclip
  rcases List.mem_filterMap.mp hclip with ⟨block, hblock, heq⟩
  have hblockInv : ∀ it ∈ block, ItemInv it := fun it hit =>
    preprocess_items_inv cfg td it (group_blocks_mem cfg _ block hblock it hit)
  try dsimp only at heq
  split_ifs at heq with hmin hbig
  · injection heq with heq
    subst heq
    dsimp only
    have hfin := truncate_inv cfg.goal_duration_ms block 0 hblockInv
    have hpairs : ∀ p ∈ (truncate_to_goal cfg.goal_duration_ms block 0).map
        fun it => (it.padded_start, it.padded_end), p.1 ≤ p.2 := by
      intro p hp
      rcases List.mem_map.mp hp with ⟨it, hit, rfl⟩
      have := hfin it hit
      simp only
      linarith [this.1, this.2]
    refine le_trans (merge_sum_le _ hpairs) ?_
    rw [map_congr_inv hfin]
    have := truncate_sum_le cfg.goal_duration_ms block 0 hgoal
    linarith
  · injection heq with heq
    subst heq
    dsimp only
    have hpairs : ∀ p ∈ block.map fun it => (it.padded_start, it.padded_end),
        p.1 ≤ p.2 := by
      intro p hp
      rcases List.mem_map.mp hp with ⟨it, hit, rfl⟩
      have := hblockInv it hit
      simp only
      linarith [this.1, this.2]
    refine le_trans (merge_sum_le _ hpairs) ?_
    rw [map_congr_inv hblockInv]
    linarith

/-- Witness for C6's amended bound: the counterexample input's single clip
(850 ms) is within the 12000 ms goal. -/
theorem c6_clip_upper_bound_witness :
    (0 : ℚ) ≤ SliceConfig.goal_duration_ms {} ∧
    ((create_audio_clips {}
        [⟨1, 0, 300, "A", "speech"⟩, ⟨2, 350, 650, "A", "speech"⟩]).all
      fun clip => decide (clip.total_duration_ms ≤ SliceConfig.goal_duration_ms {}))
      = true :=
  ⟨by decide,
    List.all_eq_true.mpr fun clip hclip => decide_eq_true
      (c6_clip_upper_bound {}
        [⟨1, 0, 300, "A", "speech"⟩, ⟨2, 350, 650, "A", "speech"⟩]
        (by decide) clip hclip)⟩

/-- C6 counterexample: two consecutive 200 ms-padded same-speaker sentences,
0-300 ms and 350-650 ms, have summed padded durations 500 + 700 = 1200 ≥ min,
so a clip is produced; but their padded segments [0,500] and [150,850] overlap
and coalesce to [0,850], giving `total_duration_ms` = 850 < 1000 =
AUDIO_CLIP_MIN_DURATION_MS — below the claimed lower bound. -/
theorem c6_counterexample :
    create_audio_clips {} [⟨1, 0, 300, "A", "speech"⟩, ⟨2, 350, 650, "A", "speech"⟩]
      = [{ speaker := "A", total_duration_ms := 850,
           segments_to_concatenate := [(0, 850)] }] ∧
    ¬ ((1000 : ℤ) ≤ 850) := by
  constructor
  · rfl
  · decide

/-- C7: resumption. When the object store holds a playlist with N ≥ 1 (media)
segments, `create_manager` adopts those segments and the stored
`media_sequence`, sets `has_segments` and puts the sequence counter at N; the
next `add_segment` (here with one new `.ts` segment) appends the (N+1)-th media
segment, names its files with pattern index N, and advances the counter to N+1. -/
theorem c7_resumption_adopts_and_appends (ep : Playlist) (hne : ep.segments ≠ [])
    (hmedia : ∀ s ∈ ep.segments, s.uri.isSome = true) (u : HLSSegment)
    (hu : u.uri.isSome = true) :
    (create_manager true (some ep)).sequence_number = ep.segments.length ∧
    (create_manager true (some ep)).has_segments = true ∧
    (create_manager true (some ep)).playlist.segments = ep.segments ∧
    (create_manager true (some ep)).playlist.media_sequence = ep.media_sequence ∧
    media_segments (add_segment (create_manager true (some ep)) [u]).1.playlist
      = ep.segments ++ [u] ∧
    (add_segment (create_manager true (some ep)) [u]).1.sequence_number
      = ep.segments.length + 1 ∧
    (add_segment (create_manager true (some ep)) [u]).2 = ep.segments.length := by
  have hempty : ep.segments.isEmpty = false := by
    simpa [List.isEmpty_iff] using hne
  simp [create_manager, add_segment, media_segments, hempty, List.filter_append,
    List.filter_eq_self.mpr hmedia, hu]

/-- Witness for C7 at a concrete stored playlist with one segment. -/
theorem c7_resumption_adopts_and_appends_witness :
    (create_manager true
        (some { media_sequence := 4,
                segments := [{ uri := some "segment_0000_000.ts", duration := 10 }] })).sequence_number
      = [({ uri := some "segment_0000_000.ts", duration := 10 } : HLSSegment)].length ∧
    (create_manager true
        (some { media_sequence := 4,
                segments := [{ uri := some "segment_0000_000.ts", duration := 10 }] })).has_segments = true ∧
    (create_manager true
        (some { media_sequence := 4,
                segments := [{ uri := some "segment_0000_000.ts", duration := 10 }] })).playlist.segments
      = [{ uri := some "segment_0000_000.ts", duration := 10 }] ∧
    (create_manager true
        (some { media_sequence := 4,
                segments := [{ uri := some "segment_0000_000.ts", duration := 10 }] })).playlist.media_sequence
      = (4 : ℕ) ∧
    media_segments (add_segment (create_manager true
        (some { media_sequence := 4,
                segments := [{ uri := some "segment_0000_000.ts", duration := 10 }] }))
        [{ uri := some "segment_0001_000.ts", duration := 10 }]).1.playlist
      = [{ uri := some "segment_0000_000.ts", duration := 10 }]
          ++ [{ uri := some "segment_0001_000.ts", duration := 10 }] ∧
    (add_segment (create_manager true
        (some { media_sequence := 4,
                segments := [{ uri := some "segment_0000_000.ts", duration := 10 }] }))
        [{ uri := some "segment_0001_000.ts", duration := 10 }]).1.sequence_number
      = [({ uri := some "segment_0000_000.ts", duration := 10 } : HLSSegment)].length + 1 ∧
    (add_segment (create_manager true
        (some { media_sequence := 4,
                segments := [{ uri := some "segment_0000_000.ts", duration := 10 }] }))
        [{ uri := some "segment_0001_000.ts", duration := 10 }]).2
      = [({ uri := some "segment_0000_000.ts", duration := 10 } : HLSSegment)].length :=
  c7_resumption_adopts_and_appends
    { media_sequence := 4,
      segments := [{ uri := some "segment_0000_000.ts", duration := 10 }] }
    (by simp) (by simp) { uri := some "segment_0001_000.ts", duration := 10 } rfl

/-- The value `align_batch` leaves in `adjusted_duration` for one sentence,
as a function of the three batch sums: the distributed shortening, the
slow-down plus trailing silence (their sum is `needed`), or the unchanged
duration. -/
def adjusted_of (T P N : ℚ) (p : Sentence) : ℚ :=
  if 0 < T ∧ 0 < p.diff ∧ 0 < P then p.duration - T * (p.diff / P)
  else if T < 0 ∧ p.diff < 0 ∧ 0 < N then p.duration + |T| * (|p.diff| / N)
  else p.duration

/-- The value `align_batch` leaves in `speed` for one sentence. -/
def speed_of (T P N : ℚ) (p : Sentence) : ℚ :=
  if 0 < T ∧ 0 < p.diff ∧ 0 < P then
    p.duration / max (p.duration - T * (p.diff / P)) (1/1000)
  else if T < 0 ∧ p.diff < 0 ∧ 0 < N then
    p.duration /
      max (p.duration + min (|T| * (|p.diff| / N)) (p.duration * (12/100))) (1/1000)
  else 1

/-- The value `align_batch` leaves in `silence_duration` for one sentence
(`P` is kept so the three observers share a signature). -/
def silence_of (T _P N : ℚ) (p : Sentence) : ℚ :=
  if T < 0 ∧ p.diff < 0 ∧ 0 < N then
    |T| * (|p.diff| / N) - min (|T| * (|p.diff| / N)) (p.duration * (12/100))
  else 0

lemma align_one_eq_pos {T P : ℚ} (N t : ℚ) {p : Sentence}
    (hT : 0 < T) (hd : 0 < p.diff) (hP : 0 < P) :
    align_one T P N t p =
      { p with adjusted_start := t,
               speed := p.duration / max (p.duration - T * (p.diff / P)) (1/1000),
               silence_duration := 0,
               adjusted_duration := p.duration - T * (p.diff / P),
               diff := p.duration - (p.duration - T * (p.diff / P)) } := by
  unfold align_one
  dsimp only
  rw [if_pos (ne_of_gt hT), if_pos (⟨hT, hd⟩ : T > 0 ∧ p.diff > 0), if_pos hP]

lemma align_one_eq_neg {T N : ℚ} (P t : ℚ) {p : Sentence}
    (hT : T < 0) (hd : p.diff < 0) (hN : 0 < N) :
    align_one T P N t p =
      (let needed := |T| * (|p.diff| / N)
       let slow := min needed (p.duration * (12/100))
       let ad := p.duration + slow
       let sil := needed - slow
       let ad2 := if sil > 0 then ad + sil else ad
       { p with adjusted_start := t, speed := p.duration / max ad (1/1000),
                silence_duration := sil, adjusted_duration := ad2,
                diff := p.duration - ad2 }) := by
  unfold align_one
  dsimp only
  rw [if_pos (ne_of_lt hT),
    if_neg (show ¬(T > 0 ∧ p.diff > 0) from fun h => absurd h.1 (not_lt.mpr hT.le)),
    if_pos (⟨hT, hd⟩ : T < 0 ∧ p.diff < 0), if_pos hN]

lemma align_one_eq_base {T P N : ℚ} (t : ℚ) {p : Sentence}
    (h1 : ¬(0 < T ∧ 0 < p.diff ∧ 0 < P)) (h2 : ¬(T < 0 ∧ p.diff < 0 ∧ 0 < N)) :
    align_one T P N t p =
      { p with adjusted_start := t, speed := 1, silence_duration := 0,
               adjusted_duration := p.duration,
               diff := p.duration - p.duration } := by
  unfold align_one
  dsimp only
  by_cases hz : T = 0
  · rw [if_neg (not_not_intro hz)]
  · rw [if_pos hz]
    by_cases hpos : T > 0 ∧ p.diff > 0
    · have hPle : ¬ P > 0 := fun hP => h1 ⟨hpos.1, hpos.2, hP⟩
      rw [if_pos hpos, if_neg hPle]
    · rw [if_neg hpos]
      by_cases hneg : T < 0 ∧ p.diff < 0
      · have hNle : ¬ N > 0 := fun hN => h2 ⟨hneg.1, hneg.2, hN⟩
        rw [if_pos hneg, if_neg hNle]
      · rw [if_neg hneg]

lemma align_one_adjusted (T P N t : ℚ) (p : Sentence) :
    (align_one T P N t p).adjusted_duration = adjusted_of T P N p := by
  unfold adjusted_of
  by_cases h1 : 0 < T ∧ 0 < p.diff ∧ 0 < P
  · rw [align_one_eq_pos N t h1.1 h1.2.1 h1.2.2, if_pos h1]
  · rw [if_neg h1]
    by_cases h2 : T < 0 ∧ p.diff < 0 ∧ 0 < N
    · rw [align_one_eq_neg P t h2.1 h2.2.1 h2.2.2, if_pos h2]
      dsimp only
      split_ifs with h3
      · ring
      · have hmin := min_le_left (|T| * (|p.diff| / N)) (p.duration * (12/100))
        have := not_lt.mp h3
        linarith
    · rw [align_one_eq_base t h1 h2, if_neg h2]

lemma align_one_speed (T P N t : ℚ) (p : Sentence) :
    (align_one T P N t p).speed = speed_of T P N p := by
  unfold speed_of
  by_cases h1 : 0 < T ∧ 0 < p.diff ∧ 0 < P
  · rw [align_one_eq_pos N t h1.1 h1.2.1 h1.2.2, if_pos h1]
  · rw [if_neg h1]
    by_cases h2 : T < 0 ∧ p.diff < 0 ∧ 0 < N
    · rw [align_one_eq_neg P t h2.1 h2.2.1 h2.2.2, if_pos h2]
    · rw [align_one_eq_base t h1 h2, if_neg h2]

lemma align_one_silence (T P N t : ℚ) (p : Sentence) :
    (align_one T P N t p).silence_duration = silence_of T P N p := by
  unfold silence_of
  by_cases h1 : 0 < T ∧ 0 < p.diff ∧ 0 < P
  · rw [align_one_eq_pos N t h1.1 h1.2.1 h1.2.2]
    have h2 : ¬(T < 0 ∧ p.diff < 0 ∧ 0 < N) := by
      rintro ⟨hT, _, _⟩
      exact absurd h1.1 (not_lt.mpr hT.le)
    rw [if_neg h2]
  · by_cases h2 : T < 0 ∧ p.diff < 0 ∧ 0 < N
    · rw [align_one_eq_neg P t h2.1 h2.2.1 h2.2.2, if_pos h2]
    · rw [align_one_eq_base t h1 h2, if_neg h2]

lemma align_one_preserves (T P N t : ℚ) (p : Sentence) :
    (align_one T P N t p).duration = p.duration ∧
    (align_one T P N t p).target_duration = p.target_duration ∧
    (align_one T P N t p).generated_audio = p.generated_audio ∧
    (align_one T P N t p).is_first = p.is_first ∧
    (align_one T P N t p).is_last = p.is_last ∧
    (align_one T P N t p).start_ms = p.start_ms ∧
    (align_one T P N t p).ending_silence = p.ending_silence := by
  unfold align_one
  dsimp only
  split_ifs <;> exact ⟨rfl, rfl, rfl, rfl, rfl, rfl, rfl⟩

lemma align_go_forall₂ {T P N : ℚ} {R : Sentence → Sentence → Prop}
    (h : ∀ t s, R s (align_one T P N t s)) :
    ∀ (l : List Sentence) (t : ℚ), List.Forall₂ R l (align_go T P N l t)
  | [], _ => List.Forall₂.nil
  | s :: rest, t =>
    List.Forall₂.cons (h t s) (align_go_forall₂ h rest _)

lemma align_go_mem {T P N : ℚ} : ∀ {l : List Sentence} {t : ℚ} {o : Sentence},
    o ∈ align_go T P N l t → ∃ p ∈ l, ∃ t', o = align_one T P N t' p := by
  intro l
  induction l with
  | nil => intro t o ho; simp [align_go] at ho
  | cons s rest ih =>
    intro t o ho
    rcases List.mem_cons.mp ho with rfl | hmem
    · exact ⟨s, List.mem_cons_self s rest, t, rfl⟩
    · rcases ih hmem with ⟨p, hp, t', rfl⟩
      exact ⟨p, List.mem_cons_of_mem s hp, t', rfl⟩

/-- The per-sentence `diff = duration - target_duration` values of a batch
(the claim's and spec's `diff`). -/
def batch_diffs (ss : List Sentence) : List ℚ :=
  ss.map fun s => s.duration - s.target_duration

/-- The claim's `total_diff`. -/
def batch_total (ss : List Sentence) : ℚ := (batch_diffs ss).sum

/-- The claim's `pos_sum`. -/
def batch_pos_sum (ss : List Sentence) : ℚ :=
  ((batch_diffs ss).filter fun d => d > 0).sum

/-- The claim's `neg_sum`. -/
def batch_neg_sum (ss : List Sentence) : ℚ :=
  (((batch_diffs ss).filter fun d => d < 0).map fun d => |d|).sum

lemma filter_map_comm {α β : Type} (f : α → β) (p : β → Bool) :
    ∀ l : List α, (l.map f).filter p = (l.filter fun a => p (f a)).map f
  | [] => rfl
  | a :: l => by
    simp only [List.map_cons, List.filter_cons]
    by_cases h : p (f a) = true
    · rw [if_pos h, if_pos h, List.map_cons, filter_map_comm f p l]
    · rw [if_neg h, if_neg h, filter_map_comm f p l]

lemma map_diff_bridge (ss : List Sentence) :
    ((ss.map fun s => { s with diff := s.duration - s.target_duration }).map (·.diff))
      = batch_diffs ss := by
  rw [List.map_map]
  rfl

lemma filter_pos_bridge (ss : List Sentence) :
    (((ss.map fun s => { s with diff := s.duration - s.target_duration }).filter
        fun s => s.diff > 0).map (·.diff))
      = (batch_diffs ss).filter fun d => d > 0 := by
  have h := filter_map_comm (fun x : Sentence => x.diff) (fun d => decide (d > 0))
    (ss.map fun s => { s with diff := s.duration - s.target_duration })
  rw [map_diff_bridge] at h
  exact h.symm

lemma filter_neg_bridge : ∀ ss : List Sentence,
    (((ss.map fun s => { s with diff := s.duration - s.target_duration }).filter
        fun s => s.diff < 0).map fun s => |s.diff|)
      = ((batch_diffs ss).filter fun d => d < 0).map fun d => |d|
  | [] => rfl
  | a :: l => by
    simp only [batch_diffs, List.map_cons, List.filter_cons]
    by_cases hc : a.duration - a.target_duration < 0
    · rw [if_pos (decide_eq_true hc), if_pos (decide_eq_true hc), List.map_cons,
        List.map_cons]
      exact congrArg _ (filter_neg_bridge l)
    · rw [if_neg (fun h => hc (of_decide_eq_true h)),
        if_neg (fun h => hc (of_decide_eq_true h))]
      exact filter_neg_bridge l

lemma align_batch_eq (s0 : Sentence) (rest : List Sentence) :
    align_batch (s0 :: rest) =
      align_go (batch_total (s0 :: rest)) (batch_pos_sum (s0 :: rest))
        (batch_neg_sum (s0 :: rest))
        ((s0 :: rest).map fun s => { s with diff := s.duration - s.target_duration })
        s0.start_ms := by
  unfold align_batch
  dsimp only
  rw [map_diff_bridge, filter_pos_bridge, filter_neg_bridge]
  rfl

lemma sum_le_sum_filter_pos : ∀ ds : List ℚ,
    ds.sum ≤ ((ds.filter fun d => d > 0).sum)
  | [] => le_refl 0
  | d :: ds => by
    by_cases h : d > 0
    · simp only [List.sum_cons, List.filter_cons, if_pos (decide_eq_true h),
        List.sum_cons]
      linarith [sum_le_sum_filter_pos ds]
    · simp only [List.sum_cons, List.filter_cons,
        if_neg (fun hc => h (of_decide_eq_true hc))]
      linarith [sum_le_sum_filter_pos ds, le_of_not_lt h]

lemma neg_sum_le_abs_filter_neg : ∀ ds : List ℚ,
    -ds.sum ≤ (((ds.filter fun d => d < 0).map fun d => |d|).sum)
  | [] => by simp
  | d :: ds => by
    by_cases h : d < 0
    · simp only [List.sum_cons, List.filter_cons, if_pos (decide_eq_true h),
        List.map_cons, List.sum_cons, abs_of_neg h]
      linarith [neg_sum_le_abs_filter_neg ds]
    · simp only [List.sum_cons, List.filter_cons,
        if_neg (fun hc => h (of_decide_eq_true hc))]
      linarith [neg_sum_le_abs_filter_neg ds, not_lt.mp h]

lemma batch_pos_sum_pos {ss : List Sentence} (h : 0 < batch_total ss) :
    0 < batch_pos_sum ss :=
  lt_of_lt_of_le h (sum_le_sum_filter_pos (batch_diffs ss))

lemma batch_neg_sum_pos {ss : List Sentence} (h : batch_total ss < 0) :
    0 < batch_neg_sum ss :=
  lt_of_lt_of_le (neg_pos.mpr h) (neg_sum_le_abs_filter_neg (batch_diffs ss))

/-- The claim's per-sentence specification of `align_batch`'s assignments,
as a predicate on the output sentence `o`: `T`, `P`, `N` are `total_diff`,
`pos_sum`, `neg_sum`; `d` the sentence's `diff` and `dur` its `duration`.
The slow-down branch records the amended `adjusted_duration = dur + needed`
(the code adds the ending silence into `adjusted_duration` as well). -/
def c1_spec (T P N d dur : ℚ) (o : Sentence) : Prop :=
  (0 < T ∧ 0 < d →
    o.adjusted_duration = dur - T * (d / P) ∧
    o.speed = dur / max (dur - T * (d / P)) (1/1000) ∧
    o.silence_duration = 0) ∧
  (T < 0 ∧ d < 0 →
    o.adjusted_duration = dur + |T| * (|d| / N) ∧
    o.speed = dur / max (dur + min (|T| * (|d| / N)) (dur * (12/100))) (1/1000) ∧
    o.silence_duration = |T| * (|d| / N) - min (|T| * (|d| / N)) (dur * (12/100))) ∧
  (¬(0 < T ∧ 0 < d) ∧ ¬(T < 0 ∧ d < 0) →
    o.speed = 1 ∧ o.silence_duration = 0 ∧ o.adjusted_duration = dur)

lemma align_one_c1_spec {T P N : ℚ} (hP : 0 < T → 0 < P) (hN : T < 0 → 0 < N)
    (t : ℚ) (p : Sentence) :
    c1_spec T P N p.diff p.duration (align_one T P N t p) := by
  unfold c1_spec
  refine ⟨?_, ?_, ?_⟩
  · rintro ⟨hT0, hd0⟩
    have hP0 := hP hT0
    refine ⟨?_, ?_, ?_⟩
    · rw [align_one_adjusted]
      unfold adjusted_of
      rw [if_pos ⟨hT0, hd0, hP0⟩]
    · rw [align_one_speed]
      unfold speed_of
      rw [if_pos ⟨hT0, hd0, hP0⟩]
    · rw [align_one_silence]
      unfold silence_of
      rw [if_neg (by rintro ⟨hT', _, _⟩; linarith)]
  · rintro ⟨hT0, hd0⟩
    have hN0 := hN hT0
    have hno : ¬(0 < T ∧ 0 < p.diff ∧ 0 < P) := by
      rintro ⟨hT', _, _⟩
      linarith
    refine ⟨?_, ?_, ?_⟩
    · rw [align_one_adjusted]
      unfold adjusted_of
      rw [if_neg hno, if_pos ⟨hT0, hd0, hN0⟩]
    · rw [align_one_speed]
      unfold speed_of
      rw [if_neg hno, if_pos ⟨hT0, hd0, hN0⟩]
    · rw [align_one_silence]
      unfold silence_of
      rw [if_pos ⟨hT0, hd0, hN0⟩]
  · rintro ⟨hno1, hno2⟩
    have c1 : ¬(0 < T ∧ 0 < p.diff ∧ 0 < P) := fun ⟨a, b, _⟩ => hno1 ⟨a, b⟩
    have c2 : ¬(T < 0 ∧ p.diff < 0 ∧ 0 < N) := fun ⟨a, b, _⟩ => hno2 ⟨a, b⟩
    refine ⟨?_, ?_, ?_⟩
    · rw [align_one_speed]
      unfold speed_of
      rw [if_neg c1, if_neg c2]
    · rw [align_one_silence]
      unfold silence_of
      rw [if_neg c2]
    · rw [align_one_adjusted]
      unfold adjusted_of
      rw [if_neg c1, if_neg c2]

/-- C1 amended: `align_batch` distributes the correction exactly as claimed for
shortening, for the `speed` formulas and for the ending silence; but in the
slow-down branch the final `adjusted_duration` also absorbs the ending silence
(lines 199-200 of src/utils/duration_utils.py), so it equals
`duration + needed` (= duration + slow + ending_silence), not `duration + slow`;
`speed` is still `duration / max(duration + slow, 1e-3)`. All other sentences
keep `speed = 1` and zero ending silence. -/
theorem c1_proportional_alignment (ss : List Sentence) :
    List.Forall₂ (fun s o =>
      c1_spec (batch_total ss) (batch_pos_sum ss) (batch_neg_sum ss)
        (s.duration - s.target_duration) s.duration o)
      ss (align_batch ss) := by
  match ss with
  | [] => exact List.Forall₂.nil
  | s0 :: rest =>
    rw [align_batch_eq s0 rest]
    have h := align_go_forall₂
      (R := fun p o => c1_spec (batch_total (s0 :: rest)) (batch_pos_sum (s0 :: rest))
        (batch_neg_sum (s0 :: rest)) p.diff p.duration o)
      (align_one_c1_spec (fun hT => batch_pos_sum_pos hT)
        (fun hT => batch_neg_sum_pos hT))
      ((s0 :: rest).map fun s => { s with diff := s.duration - s.target_duration })
      s0.start_ms
    exact List.forall₂_map_left_iff.mp h

/-- C1 counterexample: a single sentence with `duration = 1000 ms` and
`target_duration = 2000 ms` gives `needed = 1000`, `slow = min 1000 120 = 120`;
the claim predicts `adjusted_duration = duration + slow = 1120` but the code's
final `adjusted_duration` is 2000 (the ending silence is added on top). -/
theorem c1_counterexample :
    ((align_batch [{ duration := 1000, target_duration := 2000 }]).map
        (·.adjusted_duration)) = [2000] ∧
    ¬ ((2000 : ℚ) = 1000 + min ((1000 : ℚ) * (1000 / 1000)) (1000 * (12/100))) := by
  constructor
  · norm_num [align_batch, align_go, align_one, min_def, max_def, abs]
  · rw [min_def]
    norm_num

lemma sum_map_sub (f g : Sentence → ℚ) : ∀ l : List Sentence,
    (l.map fun s => f s - g s).sum = (l.map f).sum - (l.map g).sum
  | [] => by simp
  | a :: l => by
    simp only [List.map_cons, List.sum_cons, sum_map_sub f g l]
    ring

lemma adjusted_of_zero (P N : ℚ) (p : Sentence) : adjusted_of 0 P N p = p.duration := by
  unfold adjusted_of
  rw [if_neg fun h => absurd h.1 (lt_irrefl 0), if_neg fun h => absurd h.1 (lt_irrefl 0)]

lemma adjusted_of_pos {T P : ℚ} (N : ℚ) (hT : 0 < T) (hP : 0 < P) (p : Sentence) :
    adjusted_of T P N p
      = p.duration - (T / P) * (if 0 < p.diff then p.diff else 0) := by
  unfold adjusted_of
  by_cases hd : 0 < p.diff
  · rw [if_pos ⟨hT, hd, hP⟩, if_pos hd]
    ring
  · rw [if_neg fun h => hd h.2.1, if_neg fun h => absurd h.1 (lt_asymm hT), if_neg hd]
    ring

lemma adjusted_of_neg {T N : ℚ} (P : ℚ) (hT : T < 0) (hN : 0 < N) (p : Sentence) :
    adjusted_of T P N p
      = p.duration + (|T| / N) * (if p.diff < 0 then -p.diff else 0) := by
  unfold adjusted_of
  by_cases hd : p.diff < 0
  · rw [if_neg fun h => absurd h.1 (lt_asymm hT), if_pos ⟨hT, hd, hN⟩, if_pos hd,
      abs_of_neg hd]
    ring
  · rw [if_neg fun h => absurd h.1 (lt_asymm hT), if_neg fun h => hd h.2.1, if_neg hd]
    ring

lemma sum_map_if_pos (c : ℚ) : ∀ l : List Sentence,
    (l.map fun p => p.duration - c * (if 0 < p.diff then p.diff else 0)).sum
      = (l.map (·.duration)).sum - c * (((l.map (·.diff)).filter fun d => d > 0).sum)
  | [] => by simp
  | a :: l => by
    by_cases hd : 0 < a.diff
    · simp only [List.map_cons, List.sum_cons, List.filter_cons,
        if_pos (decide_eq_true hd), if_pos hd, List.sum_cons]
      rw [sum_map_if_pos c l]
      ring
    · simp only [List.map_cons, List.sum_cons, List.filter_cons,
        if_neg (fun h => hd (of_decide_eq_true h)), if_neg hd]
      rw [sum_map_if_pos c l]
      ring

lemma sum_map_if_neg (c : ℚ) : ∀ l : List Sentence,
    (l.map fun p => p.duration + c * (if p.diff < 0 then -p.diff else 0)).sum
      = (l.map (·.duration)).sum
        + c * ((((l.map (·.diff)).filter fun d => d < 0).map fun d => |d|).sum)
  | [] => by simp
  | a :: l => by
    by_cases hd : a.diff < 0
    · simp only [List.map_cons, List.sum_cons, List.filter_cons,
        if_pos (decide_eq_true hd), if_pos hd, List.map_cons, List.sum_cons,
        abs_of_neg hd]
      rw [sum_map_if_neg c l]
      ring
    · simp only [List.map_cons, List.sum_cons, List.filter_cons,
        if_neg (fun h => hd (of_decide_eq_true h)), if_neg hd]
      rw [sum_map_if_neg c l]
      ring

lemma align_go_map_adjusted (T P N : ℚ) : ∀ (l : List Sentence) (t : ℚ),
    (align_go T P N l t).map (·.adjusted_duration) = l.map (adjusted_of T P N)
  | [], _ => rfl
  | s :: l, t => by
    simp only [align_go, List.map_cons]
    rw [align_one_adjusted, align_go_map_adjusted T P N l]

lemma align_batch_map_adjusted (ss : List Sentence) :
    (align_batch ss).map (·.adjusted_duration)
      = (ss.map fun s => { s with diff := s.duration - s.target_duration }).map
          (adjusted_of (batch_total ss) (batch_pos_sum ss) (batch_neg_sum ss)) := by
  cases ss with
  | nil => rfl
  | cons s0 rest =>
    rw [align_batch_eq]
    exact align_go_map_adjusted _ _ _ _ _

/-- The adjusted durations `align_batch` assigns always sum to the batch's
summed target durations: the proportional correction is exact. -/
lemma align_batch_sum_adjusted (ss : List Sentence) :
    ((align_batch ss).map (·.adjusted_duration)).sum
      = (ss.map (·.target_duration)).sum := by
  rw [align_batch_map_adjusted]
  have hdur_pre : (ss.map fun s =>
      { s with diff := s.duration - s.target_duration }).map (·.duration)
        = ss.map (·.duration) := by
    rw [List.map_map]
    rfl
  have htot : batch_total ss
      = (ss.map (·.duration)).sum - (ss.map (·.target_duration)).sum := by
    unfold batch_total batch_diffs
    rw [sum_map_sub]
  rcases lt_trichotomy (batch_total ss) 0 with hneg | hzero | hpos
  · have hN := batch_neg_sum_pos hneg
    have hpt : (ss.map fun s =>
        { s with diff := s.duration - s.target_duration }).map
          (adjusted_of (batch_total ss) (batch_pos_sum ss) (batch_neg_sum ss))
        = (ss.map fun s => { s with diff := s.duration - s.target_duration }).map
            fun p => p.duration + (|batch_total ss| / batch_neg_sum ss) *
              (if p.diff < 0 then -p.diff else 0) :=
      congrFun (congrArg List.map (funext (adjusted_of_neg (batch_pos_sum ss) hneg hN))) _
    rw [hpt, sum_map_if_neg, hdur_pre, map_diff_bridge]
    have hNdef : (((batch_diffs ss).filter fun d => d < 0).map fun d => |d|).sum
        = batch_neg_sum ss := rfl
    rw [hNdef, abs_of_neg hneg, div_mul_cancel₀ _ (ne_of_gt hN)]
    linarith
  · have hpt : (ss.map fun s =>
        { s with diff := s.duration - s.target_duration }).map
          (adjusted_of (batch_total ss) (batch_pos_sum ss) (batch_neg_sum ss))
        = (ss.map fun s => { s with diff := s.duration - s.target_duration }).map
            (·.duration) := by
      rw [hzero]
      exact congrFun (congrArg List.map
        (funext (adjusted_of_zero (batch_pos_sum ss) (batch_neg_sum ss)))) _
    rw [hpt, hdur_pre]
    linarith
  · have hP := batch_pos_sum_pos hpos
    have hpt : (ss.map fun s =>
        { s with diff := s.duration - s.target_duration }).map
          (adjusted_of (batch_total ss) (batch_pos_sum ss) (batch_neg_sum ss))
        = (ss.map fun s => { s with diff := s.duration - s.target_duration }).map
            fun p => p.duration - (batch_total ss / batch_pos_sum ss) *
              (if 0 < p.diff then p.diff else 0) :=
      congrFun (congrArg List.map (funext (adjusted_of_pos (batch_neg_sum ss) hpos hP))) _
    rw [hpt, sum_map_if_pos, hdur_pre, map_diff_bridge]
    have hPdef : ((batch_diffs ss).filter fun d => d > 0).sum = batch_pos_sum ss := rfl
    rw [hPdef, div_mul_cancel₀ _ (ne_of_gt hP)]
    linarith

lemma apply_one_keeps (s : Sentence) :
    (apply_one s).speed = s.speed ∧
    (apply_one s).silence_duration = s.silence_duration ∧
    (apply_one s).target_duration = s.target_duration ∧
    (apply_one s).generated_audio = s.generated_audio := by
  unfold apply_one
  rcases hga : s.generated_audio with _ | a
  · exact ⟨rfl, rfl, rfl, rfl⟩
  · dsimp only
    split_ifs <;> exact ⟨rfl, rfl, rfl, rfl⟩

lemma apply_one_duration (s : Sentence) (a : List ℚ) (hga : s.generated_audio = some a)
    (hlen : ¬ a.length = 0)
    (hfirst : ¬(s.is_first = true ∧ s.start_ms > 0))
    (hlast : ¬(s.is_last = true ∧ s.ending_silence > 0))
    (hsppos : 0 < s.speed) :
    (apply_one s).duration = s.duration / s.speed +
      (if s.silence_duration > 0 then s.silence_duration else 0) := by
  unfold apply_one
  rw [hga]
  dsimp only
  rw [if_neg hlen]
  dsimp only
  rw [if_neg hfirst, if_neg hlast]
  by_cases hs1 : s.speed = 1
  · rw [if_neg (show ¬(s.speed ≠ 1 ∧ s.speed > 0) from fun h => h.1 hs1), hs1, div_one]
    split_ifs <;> ring
  · rw [if_pos (show s.speed ≠ 1 ∧ s.speed > 0 from ⟨hs1, hsppos⟩)]
    split_ifs <;> ring

lemma apply_align_duration {T P N : ℚ}
    (t : ℚ) (p : Sentence) (a : List ℚ) (hga : p.generated_audio = some a)
    (hlen : ¬ a.length = 0) (hdur : 1 ≤ p.duration)
    (hfirst : ¬(p.is_first = true ∧ p.start_ms > 0))
    (hlast : ¬(p.is_last = true ∧ p.ending_silence > 0))
    (hspeed : (align_one T P N t p).speed ≤ 11/10) :
    (apply_one (align_one T P N t p)).duration = adjusted_of T P N p := by
  obtain ⟨hqdur, _, hqga, hqfirst, hqlast, hqstart, hqend⟩ := align_one_preserves T P N t p
  have hqga' : (align_one T P N t p).generated_audio = some a := hqga.trans hga
  have hqfirst' : ¬((align_one T P N t p).is_first = true ∧
      (align_one T P N t p).start_ms > 0) := by
    rw [hqfirst, hqstart]
    exact hfirst
  have hqlast' : ¬((align_one T P N t p).is_last = true ∧
      (align_one T P N t p).ending_silence > 0) := by
    rw [hqlast, hqend]
    exact hlast
  by_cases h1 : 0 < T ∧ 0 < p.diff ∧ 0 < P
  · have hsp : (align_one T P N t p).speed
        = p.duration / max (p.duration - T * (p.diff / P)) (1/1000) := by
      rw [align_one_speed]
      unfold speed_of
      rw [if_pos h1]
    have hsil : (align_one T P N t p).silence_duration = 0 := by
      rw [align_one_silence]
      unfold silence_of
      rw [if_neg fun h => absurd h1.1 (lt_asymm h.1)]
    have hadge : (1 : ℚ)/1000 ≤ p.duration - T * (p.diff / P) := by
      by_contra hlt
      have hmax : max (p.duration - T * (p.diff / P)) (1/1000) = 1/1000 :=
        max_eq_right (le_of_lt (not_le.mp hlt))
      have hval : (align_one T P N t p).speed = p.duration * 1000 := by
        rw [hsp, hmax]
        ring
      rw [hval] at hspeed
      linarith
    have hadpos : 0 < p.duration - T * (p.diff / P) := lt_of_lt_of_le (by norm_num) hadge
    have hmax : max (p.duration - T * (p.diff / P)) (1/1000)
        = p.duration - T * (p.diff / P) := max_eq_left hadge
    have hsppos : 0 < (align_one T P N t p).speed := by
      rw [hsp, hmax]
      exact div_pos (by linarith) hadpos
    rw [apply_one_duration _ a hqga' hlen hqfirst' hqlast' hsppos, hqdur, hsil, hsp, hmax]
    rw [if_neg (lt_irrefl 0)]
    unfold adjusted_of
    rw [if_pos h1]
    have hdne : p.duration ≠ 0 := by linarith
    field_simp
  · by_cases h2 : T < 0 ∧ p.diff < 0 ∧ 0 < N
    · have hneed : (0 : ℚ) ≤ |T| * (|p.diff| / N) :=
        mul_nonneg (abs_nonneg T) (div_nonneg (abs_nonneg p.diff) (le_of_lt h2.2.2))
      have hslow0 : (0 : ℚ) ≤ min (|T| * (|p.diff| / N)) (p.duration * (12/100)) :=
        le_min hneed (by nlinarith)
      have hslowle : min (|T| * (|p.diff| / N)) (p.duration * (12/100))
          ≤ |T| * (|p.diff| / N) := min_le_left _ _
      have hsum1 : (1 : ℚ) ≤ p.duration
          + min (|T| * (|p.diff| / N)) (p.duration * (12/100)) := by linarith
      have hmax : max (p.duration
            + min (|T| * (|p.diff| / N)) (p.duration * (12/100))) (1/1000)
          = p.duration + min (|T| * (|p.diff| / N)) (p.duration * (12/100)) :=
        max_eq_left (by linarith)
      have hsp : (align_one T P N t p).speed = p.duration /
          (p.duration + min (|T| * (|p.diff| / N)) (p.duration * (12/100))) := by
        rw [align_one_speed]
        unfold speed_of
        rw [if_neg h1, if_pos h2, hmax]
      have hsil : (align_one T P N t p).silence_duration
          = |T| * (|p.diff| / N) - min (|T| * (|p.diff| / N)) (p.duration * (12/100)) := by
        rw [align_one_silence]
        unfold silence_of
        rw [if_pos h2]
      have hsppos : 0 < (align_one T P N t p).speed := by
        rw [hsp]
        exact div_pos (by linarith) (by linarith)
      rw [apply_one_duration _ a hqga' hlen hqfirst' hqlast' hsppos, hqdur, hsil, hsp]
      unfold adjusted_of
      rw [if_neg h1, if_pos h2]
      have hdd : p.duration /
          (p.duration / (p.duration
            + min (|T| * (|p.diff| / N)) (p.duration * (12/100))))
          = p.duration + min (|T| * (|p.diff| / N)) (p.duration * (12/100)) := by
        rw [div_div_eq_mul_div, mul_comm p.duration, mul_div_assoc,
          div_self (ne_of_gt (by linarith : (0 : ℚ) < p.duration)), mul_one]
      rw [hdd]
      split_ifs with hpos
      · ring
      · have : |T| * (|p.diff| / N)
            - min (|T| * (|p.diff| / N)) (p.duration * (12/100)) = 0 := by
          have := not_lt.mp hpos
          linarith
        linarith
    · have hsp : (align_one T P N t p).speed = 1 := by
        rw [align_one_speed]
        unfold speed_of
        rw [if_neg h1, if_neg h2]
      have hsil : (align_one T P N t p).silence_duration = 0 := by
        rw [align_one_silence]
        unfold silence_of
        rw [if_neg h2]
      rw [apply_one_duration _ a hqga' hlen hqfirst' hqlast' (by rw [hsp]; norm_num),
        hqdur, hsil, hsp, div_one, if_neg (lt_irrefl 0)]
      unfold adjusted_of
      rw [if_neg h1, if_neg h2]
      ring

lemma batch_total_eq (ss : List Sentence) :
    batch_total ss = (ss.map (·.duration)).sum - (ss.map (·.target_duration)).sum := by
  unfold batch_total batch_diffs
  rw [sum_map_sub]

lemma align_go_map_target (T P N : ℚ) : ∀ (l : List Sentence) (t : ℚ),
    (align_go T P N l t).map (·.target_duration) = l.map (·.target_duration)
  | [], _ => rfl
  | s :: rest, t => by
    simp only [align_go, List.map_cons]
    rw [(align_one_preserves T P N t s).2.1, align_go_map_target T P N rest _]

lemma align_batch_map_target (ss : List Sentence) :
    (align_batch ss).map (·.target_duration) = ss.map (·.target_duration) := by
  match ss with
  | [] => rfl
  | s0 :: rest =>
    rw [align_batch_eq, align_go_map_target, List.map_map]
    rfl

lemma align_batch_zero_total {l : List Sentence} (h : batch_total l = 0) :
    ∀ o ∈ align_batch l, o.speed = 1 ∧ o.silence_duration = 0 := by
  intro o ho
  cases l with
  | nil => simp [align_batch] at ho
  | cons s0 rest =>
    rw [align_batch_eq] at ho
    rcases align_go_mem ho with ⟨p, _, t', rfl⟩
    refine ⟨?_, ?_⟩
    · rw [align_one_speed]
      unfold speed_of
      rw [h]
      norm_num
    · rw [align_one_silence]
      unfold silence_of
      rw [h]
      norm_num

/-- The hypotheses under which `apply_speed_and_silence` realizes exactly the
aligner's planned `adjusted_duration` for a sentence: generated audio present and
non-empty, at least 1 ms of it, and none of the first/last extra-silence paths. -/
def Alignable (s : Sentence) : Prop :=
  (∃ a, s.generated_audio = some a ∧ a.length ≠ 0) ∧
  1 ≤ s.duration ∧
  ¬(s.is_first = true ∧ s.start_ms > 0) ∧
  ¬(s.is_last = true ∧ s.ending_silence > 0)

lemma apply_align_batch_duration {b : List Sentence}
    (hA : ∀ s ∈ b, Alignable s)
    (hfast : ∀ o ∈ align_batch b, o.speed ≤ 11/10) :
    ∀ o ∈ align_batch b, (apply_one o).duration = o.adjusted_duration := by
  intro o ho
  cases b with
  | nil => simp [align_batch] at ho
  | cons s0 rest =>
    have ho' := ho
    rw [align_batch_eq] at ho'
    rcases align_go_mem ho' with ⟨p, hp, t', heq⟩
    rcases List.mem_map.mp hp with ⟨s, hs, rfl⟩
    rcases hA s hs with ⟨⟨a, hga, hlen⟩, hdur, hfirst, hlast⟩
    subst heq
    rw [align_one_adjusted]
    exact apply_align_duration t' _ a hga hlen hdur hfirst hlast (hfast _ ho)

lemma apply_batch_total {b : List Sentence}
    (hA : ∀ s ∈ b, Alignable s)
    (hfast : ∀ o ∈ align_batch b, o.speed ≤ 11/10) :
    batch_total (apply_speed_and_silence (align_batch b)) = 0 := by
  unfold apply_speed_and_silence
  rw [batch_total_eq, List.map_map, List.map_map]
  have h1 : (align_batch b).map ((·.duration) ∘ apply_one)
      = (align_batch b).map (·.adjusted_duration) :=
    List.map_congr_left fun o ho => apply_align_batch_duration hA hfast o ho
  have h2 : (align_batch b).map ((·.target_duration) ∘ apply_one)
      = (align_batch b).map (·.target_duration) :=
    List.map_congr_left fun o _ => (apply_one_keeps o).2.2.1
  rw [h1, h2, align_batch_sum_adjusted, align_batch_map_target]
  ring

/-- C8: running the Duration Aligner a second time on a batch it has already
aligned (with the default `max_speed = 1.1`, every sentence's generated audio
present and non-empty, and no first/last extra-silence path taken) succeeds, but
instead of leaving `speed` and the silence allocation unchanged it RESETS every
sentence's `speed` to `1.0` and `silence_duration` to `0`: after the first pass
the realized durations sum to the targets, so the second pass sees
`total_diff_to_adjust = 0` and takes the no-adjustment branch on every sentence,
overwriting whatever non-trivial `speed` the first pass stored. -/
theorem c8_second_run_resets (b : List Sentence)
    (hA : ∀ s ∈ b, Alignable s)
    (hfast : ∀ o ∈ align_batch b, o.speed ≤ 11/10) :
    ∃ b₁ b₂, duration_aligner_call (11/10) b = some b₁ ∧
      duration_aligner_call (11/10) b₁ = some b₂ ∧
      ∀ s ∈ b₂, s.speed = 1 ∧ s.silence_duration = 0 := by
  have htot0 : batch_total (apply_speed_and_silence (align_batch b)) = 0 :=
    apply_batch_total hA hfast
  have hfast₂ : ∀ o ∈ align_batch (apply_speed_and_silence (align_batch b)),
      o.speed ≤ 11/10 := by
    intro o ho
    rw [(align_batch_zero_total htot0 o ho).1]
    norm_num
  refine ⟨apply_speed_and_silence (align_batch b),
    apply_speed_and_silence (align_batch (apply_speed_and_silence (align_batch b))),
    ?_, ?_, ?_⟩
  · have hc : ((align_batch b).all fun s => decide (s.speed ≤ 11/10)) = true :=
      List.all_eq_true.mpr fun o ho => decide_eq_true (hfast o ho)
    simp only [duration_aligner_call]
    rw [if_pos hc]
  · have hc : ((align_batch (apply_speed_and_silence (align_batch b))).all
        fun s => decide (s.speed ≤ 11/10)) = true :=
      List.all_eq_true.mpr fun o ho => decide_eq_true (hfast₂ o ho)
    simp only [duration_aligner_call]
    rw [if_pos hc]
  · intro s hs
    rcases List.mem_map.mp hs with ⟨o, ho, rfl⟩
    obtain ⟨hsp, hsil, _⟩ := apply_one_keeps o
    rw [hsp, hsil]
    exact align_batch_zero_total htot0 o ho

/-- A single already-on-target sentence, for instantiating `c8_second_run_resets`. -/
def c8_one : Sentence :=
  { duration := 1000, target_duration := 1000, generated_audio := some [0] }

/-- Closed instance of `c8_second_run_resets` at the one-sentence batch `[c8_one]`. -/
theorem c8_second_run_resets_witness :
    ∃ b₁ b₂, duration_aligner_call (11/10) [c8_one] = some b₁ ∧
      duration_aligner_call (11/10) b₁ = some b₂ ∧
      ∀ s ∈ b₂, s.speed = 1 ∧ s.silence_duration = 0 :=
  c8_second_run_resets _
    (by
      intro s hs
      rw [List.mem_singleton] at hs
      subst hs
      exact ⟨⟨[0], rfl, by norm_num⟩, by norm_num [c8_one],
        by simp [c8_one], by simp [c8_one]⟩)
    (by
      intro o ho
      have h0 : batch_total [c8_one] = 0 := by
        norm_num [batch_total, batch_diffs, c8_one]
      rw [(align_batch_zero_total h0 o ho).1]
      norm_num)

/-- A two-sentence batch the aligner speeds up on the first pass. -/
def c8_batch : List Sentence :=
  [{ duration := 1100, target_duration := 1000, generated_audio := some [0] },
   { duration := 1000, target_duration := 1000, generated_audio := some [0] }]

/-- C8 counterexample to the claim as stated: on `c8_batch` the first aligner run
stores `speed = 1.1` on the first sentence, and the second run is NOT a no-op on
`speed` — it resets that sentence's `speed` to `1.0`. -/
theorem c8_counterexample :
    ((duration_aligner_call (11/10) c8_batch).map fun l => l.map (·.speed))
      = some [11/10, 1] ∧
    (((duration_aligner_call (11/10) c8_batch).bind
        (duration_aligner_call (11/10))).map fun l => l.map (·.speed))
      = some [1, 1] ∧
    (11/10 : ℚ) ≠ 1 := by
  refine ⟨?_, ?_, by norm_num⟩
  · norm_num [duration_aligner_call, align_batch, align_go, align_one,
      apply_speed_and_silence, apply_one, c8_batch, min_def, max_def, abs,
      List.all_cons, List.all_nil, decide_eq_true_eq]
  · norm_num [duration_aligner_call, align_batch, align_go, align_one,
      apply_speed_and_silence, apply_one, c8_batch, min_def, max_def, abs,
      List.all_cons, List.all_nil, decide_eq_true_eq, Option.bind]

end WaveShift
